import Mathlib

/-
Verification of the rdbdiff schema-comparison core (src/diff.ts).

The engine compares two loaded database schema documents and produces a flat
list of typed differences.  JavaScript objects are modelled as association
lists in insertion order (JS object keys are unique; `Set` iteration is
insertion order), `undefined` as absence (`Option`), and JS runtime values by
the inductive `JSVal` (where `typeof null = "object"`).
-/

namespace Rdbdiff

/-- Model of a JavaScript runtime value as it can occur inside a loaded
schema record: `null`, a string, a number, a boolean, or a nested object. -/
inductive JSVal where
  | null : JSVal
  | str : String → JSVal
  | num : Int → JSVal
  | bool : Bool → JSVal
  | obj : List (String × JSVal) → JSVal
deriving Repr

/-- A JavaScript `Record<string, any>`: association list in insertion order,
keys unique. -/
abbrev JRecord := List (String × JSVal)

/-- Result of the JavaScript `typeof` operator on a defined value. -/
def jsTypeof : JSVal → String
  | .null => "object"
  | .str _ => "string"
  | .num _ => "number"
  | .bool _ => "boolean"
  | .obj _ => "object"

/-- Property lookup in a JS object: first matching key (keys are unique in a
real JS object); `none` models `undefined`. -/
def lookupJR {α : Type} : List (String × α) → String → Option α
  | [], _ => none
  | (k, v) :: rest, key => if k = key then some v else lookupJR rest key

/-- The key list (`Object.keys`) of an association list. -/
def keysOf {α : Type} (l : List (String × α)) : List String :=
  l.map Prod.fst

/-- Insertion-order deduplication, as performed by `new Set([...])`: keep the
first occurrence of each element; `seen` holds the already-kept elements. -/
def dedupKeys : List String → List String → List String
  | _, [] => []
  | seen, k :: rest =>
    if k ∈ seen then dedupKeys seen rest else k :: dedupKeys (k :: seen) rest

/-- Union of the key sets of two JS objects, in `new Set([...Object.keys(A),
...Object.keys(B)])` iteration order. -/
def unionKeys {α : Type} (A B : List (String × α)) : List String :=
  dedupKeys [] (keysOf A ++ keysOf B)

/-- The `ObjectType` union of src/diff.ts. -/
inductive ObjectType where
  | table
  | tableColumn
  | index
  | procedure
  | procedureParameter
  | function
  | functionParameter
deriving DecidableEq, Repr

/-- The `ComparisonRemarks` union: `"exist" | "missing" | "mismatch"`. -/
inductive ComparisonRemarks where
  | exist
  | missing
  | mismatch
deriving DecidableEq, Repr

/-- One emitted difference record (`Comparison` in src/diff.ts); `inOwner`
models the optional `in` field. -/
structure Comparison where
  objectType : ObjectType
  name : String
  inOwner : Option String
  A : Option ComparisonRemarks
  B : Option ComparisonRemarks
deriving DecidableEq, Repr

/-- The optional `options` argument of `compareSchemaObjects`; an absent
`options` object is the record with every field `none`. -/
structure CsoOptions where
  inOwner : Option String := none
  name : Option String := none
  remarks : Option ComparisonRemarks := none
  whitespaces : Option Bool := none

/-- JS truthiness of `options?.name`: a present, non-empty string. -/
def csoNameTruthy (options : CsoOptions) : Bool :=
  match options.name with
  | some s => s ≠ ""
  | none => false

/-- The value of `options?.name || prop`. -/
def csoNameOrProp (options : CsoOptions) (prop : String) : String :=
  match options.name with
  | some s => if s = "" then prop else s
  | none => prop

/-- Whether a character is matched by `\s` in the JavaScript regular
expression engine (restricted to the ASCII range; the schema strings under
comparison contain no Unicode whitespace). -/
def isWs (c : Char) : Bool :=
  c = ' ' || c = '\t' || c = '\n' || c = '\r' || c = '\x0b' || c = '\x0c'

/-- Replacement text for one maximal whitespace run under the regex
`([\s]{2,}|\t|\n)` with global replacement by a single space: a run of two or
more characters collapses to one space, a lone tab or newline becomes a
space, and any other lone whitespace character is left unchanged. -/
def emitRun (run : List Char) : List Char :=
  match run with
  | [] => []
  | [c] => if c = '\t' || c = '\n' then [' '] else [c]
  | _ => [' ']

/-- Left-to-right scan implementing `s.replace(/([\s]{2,}|\t|\n)/g, " ")`:
`run` accumulates the current (still open) maximal whitespace run. -/
def normWsAux (run : List Char) : List Char → List Char
  | [] => emitRun run
  | c :: rest =>
    if isWs c then normWsAux (run ++ [c]) rest
    else emitRun run ++ c :: normWsAux [] rest

/-- Whitespace normalization of a character list. -/
def normWs (l : List Char) : List Char :=
  normWsAux [] l

/-- Whitespace normalization of a string, as applied to string-valued schema
properties when `options?.whitespaces == false`. -/
def normStr (s : String) : String :=
  String.mk (normWs s.data)

/-- The value bound to `valueA` / `valueB` for one property: the looked-up
value, whitespace-normalized when it is a string and `options?.whitespaces ==
false` (JS loose equality: only an explicit `false` enables normalization). -/
def csoAdjust (options : CsoOptions) (v : Option JSVal) : Option JSVal :=
  match v with
  | some (.str s) =>
    if options.whitespaces = some false then some (.str (normStr s)) else some (.str s)
  | other => other

/-- The test `typeof valueA !== "object" && typeof valueB !== "object" &&
valueA !== valueB`, decided by the shapes of the two defined values: any case
involving `null` or a nested object fails the `typeof` guards; two non-object
scalars of different runtime types are `!==`; two of the same type compare by
value. -/
def csoMismatchCond : JSVal → JSVal → Bool
  | .str a, .str b => a != b
  | .num a, .num b => a != b
  | .bool a, .bool b => a != b
  | .str _, .num _ => true
  | .str _, .bool _ => true
  | .num _, .str _ => true
  | .num _, .bool _ => true
  | .bool _, .str _ => true
  | .bool _, .num _ => true
  | _, _ => false

/-- One iteration of the `compareSchemaObjects` loop body for property
`prop`: `some c` when a difference is pushed, `none` when the property is
added to `nodiffKeys`. -/
def csoEntry (objectType : ObjectType) (A B : JRecord) (options : CsoOptions)
    (prop : String) : Option Comparison :=
  let valueA := csoAdjust options (lookupJR A prop)
  let valueB := csoAdjust options (lookupJR B prop)
  match valueA, valueB with
  | none, _ =>
    some ⟨objectType, csoNameOrProp options prop, options.inOwner,
      some (options.remarks.getD .missing), some (options.remarks.getD .exist)⟩
  | some _, none =>
    some ⟨objectType, csoNameOrProp options prop, options.inOwner,
      some (options.remarks.getD .exist), some (options.remarks.getD .missing)⟩
  | some va, some vb =>
    if csoMismatchCond va vb then
      some ⟨objectType, csoNameOrProp options prop, options.inOwner,
        some .mismatch, some .mismatch⟩
    else
      none

/-- The `for (let prop of allProps)` loop of `compareSchemaObjects`,
including the `if (options?.name && diff.length) break;` short-circuit (a
difference can only have been emitted by the current iteration, since any
earlier one would already have broken). -/
def csoLoop (objectType : ObjectType) (A B : JRecord) (options : CsoOptions) :
    List String → List Comparison × List String
  | [] => ([], [])
  | prop :: rest =>
    match csoEntry objectType A B options prop with
    | some c =>
      if csoNameTruthy options then ([c], [])
      else
        let r := csoLoop objectType A B options rest
        (c :: r.1, r.2)
    | none =>
      let r := csoLoop objectType A B options rest
      (r.1, prop :: r.2)

/-- The comparator `compareSchemaObjects` of src/diff.ts: compares two
property mappings (an absent mapping is treated as `{}` by `_A || {}`) and
returns the emitted differences together with the set of keys found equal
(`nodiffKeys`, in insertion order). -/
def compareSchemaObjects (objectType : ObjectType) (_A _B : Option JRecord)
    (options : CsoOptions) : List Comparison × List String :=
  let A := _A.getD []
  let B := _B.getD []
  csoLoop objectType A B options (unionKeys A B)

/-- The `ComparisonOptions` record of src/diff.ts. -/
structure ComparisonOptions where
  eager : Bool
  verbose : Bool
  whitespaces : Bool

/-- One table of a loaded `InformationSchema`: its storage engine and its
column mapping (column name to a record of scalar column properties). -/
structure TableSchema where
  engine : String
  columns : List (String × JRecord)

/-- One stored routine of a loaded `InformationSchema`: its body text and its
parameter mapping (parameter name to a record of scalar properties). -/
structure RoutineSchema where
  definition : String
  parameters : List (String × JRecord)

/-- The per-table index mapping: index key name to column name to the index
row record. -/
abbrev IndexMap := List (String × List (String × JRecord))

/-- The loaded schema document of one database (the `summary` field of the
source type is never read by the comparison methods and is omitted). -/
structure InformationSchema where
  tables : List (String × TableSchema)
  indexes : List (String × IndexMap)
  procedures : List (String × RoutineSchema)
  functions : List (String × RoutineSchema)

/-- View a mapping whose values are records as a JS object value mapping. -/
def recordToJ (r : List (String × JRecord)) : JRecord :=
  r.map (fun p => (p.1, JSVal.obj p.2))

/-- A `tables` entry as the JS object `{ engine, columns }`. -/
def tableToJ (t : TableSchema) : JSVal :=
  .obj [("engine", .str t.engine), ("columns", .obj (recordToJ t.columns))]

/-- The `tables` mapping as a JS object. -/
def tablesToJ (ts : List (String × TableSchema)) : JRecord :=
  ts.map (fun p => (p.1, tableToJ p.2))

/-- A `procedures` or `functions` entry (`thisProc`) as the JS record
`{ definition, parameters }` passed to the comparator. -/
def routineToJR (r : RoutineSchema) : JRecord :=
  [("definition", .str r.definition), ("parameters", .obj (recordToJ r.parameters))]

/-- The `procedures` or `functions` mapping as a JS object. -/
def routinesToJ (rs : List (String × RoutineSchema)) : JRecord :=
  rs.map (fun p => (p.1, .obj (routineToJR p.2)))

/-- The per-table index mapping as a JS object (each index is the object of
its column rows). -/
def indexMapToJ (m : IndexMap) : JRecord :=
  m.map (fun p => (p.1, JSVal.obj (recordToJ p.2)))

/-- The value `schema.tables[t].columns`, as an optional mapping. -/
def colsJOf (A : InformationSchema) (t : String) : Option JRecord :=
  (lookupJR A.tables t).map (fun ts => recordToJ ts.columns)

/-- The value `schema.tables[t].columns[c]`, as an optional record. -/
def columnLookup (A : InformationSchema) (t c : String) : Option JRecord :=
  (lookupJR A.tables t).bind (fun ts => lookupJR ts.columns c)

/-- The value `schema.indexes[t]`, as an optional mapping. -/
def idxJOf (A : InformationSchema) (t : String) : Option JRecord :=
  (lookupJR A.indexes t).map indexMapToJ

/-- The value `schema.indexes[t][k]`, as an optional mapping. -/
def idxKeyJOf (A : InformationSchema) (t k : String) : Option JRecord :=
  ((lookupJR A.indexes t).bind (fun m => lookupJR m k)).map recordToJ

/-- The value `schema.indexes[t][k][c]`, as an optional record. -/
def idxColJOf (A : InformationSchema) (t k c : String) : Option JRecord :=
  ((lookupJR A.indexes t).bind (fun m => lookupJR m k)).bind
    (fun cols => lookupJR cols c)

/-- The value `schema.procedures[p]` (resp. `functions[p]`) viewed as the
record passed to the body comparison. -/
def routineJROf (rs : List (String × RoutineSchema)) (p : String) : Option JRecord :=
  (lookupJR rs p).map routineToJR

/-- The value `schema.procedures[p].parameters` as an optional mapping. -/
def paramsJOf (rs : List (String × RoutineSchema)) (p : String) : Option JRecord :=
  (lookupJR rs p).map (fun r => recordToJ r.parameters)

/-- The value `schema.procedures[p].parameters[q]` as an optional record. -/
def paramLookup (rs : List (String × RoutineSchema)) (p q : String) : Option JRecord :=
  (lookupJR rs p).bind (fun r => lookupJR r.parameters q)

/-- The inner `for (let column of allColumns)` loop of `compareTables`: on
the first column whose record comparison reports a difference, push it and,
unless `eager`, break. -/
def columnsLoop (opts : ComparisonOptions) (A B : InformationSchema) (t : String) :
    List String → List Comparison
  | [] => []
  | c :: rest =>
    let mm := compareSchemaObjects .tableColumn (columnLookup A t c)
      (columnLookup B t c) { name := some c, inOwner := some t }
    if mm.1 ≠ [] then
      mm.1 ++ (if !opts.eager then [] else columnsLoop opts A B t rest)
    else columnsLoop opts A B t rest

/-- The `for (let table of allTables)` loop of `compareTables`.  Note that
the source compares `this.schema.tables[table].columns` against itself (not
against `other`'s) in the missing-column presence pass. -/
def tablesLoop (opts : ComparisonOptions) (A B : InformationSchema) :
    List String → List Comparison
  | [] => []
  | t :: rest =>
    let mc := compareSchemaObjects .tableColumn (colsJOf A t) (colsJOf A t)
      { inOwner := some t }
    if mc.1 ≠ [] then
      mc.1 ++ (if !opts.eager then tablesLoop opts A B rest
        else columnsLoop opts A B t mc.2 ++ tablesLoop opts A B rest)
    else columnsLoop opts A B t mc.2 ++ tablesLoop opts A B rest

/-- The `compareTables` method: a presence pass over the two `tables`
mappings, then per-table column checks. -/
def compareTables (opts : ComparisonOptions) (A B : InformationSchema) :
    List Comparison :=
  let pres := compareSchemaObjects .table (some (tablesToJ A.tables))
    (some (tablesToJ B.tables)) {}
  pres.1 ++ tablesLoop opts A B pres.2

/-- The innermost `for (let column of allColumns)` loop of `compareIndex`:
the first differing column record is pushed and breaks the column loop
(unconditionally, not governed by `eager`). -/
def indexColsLoop (A B : InformationSchema) (t k : String) :
    List String → List Comparison
  | [] => []
  | c :: rest =>
    let mm := compareSchemaObjects .index (idxColJOf A t k c) (idxColJOf B t k c)
      { name := some k, inOwner := some t, remarks := some .mismatch }
    if mm.1 ≠ [] then mm.1
    else indexColsLoop A B t k rest

/-- The `for (let key_name of allIndexes)` loop of `compareIndex`: a missing
column inside an index pushes one difference and breaks the whole key loop;
otherwise the per-column records are checked. -/
def indexKeysLoop (A B : InformationSchema) (t : String) :
    List String → List Comparison
  | [] => []
  | k :: rest =>
    let mc := compareSchemaObjects .index (idxKeyJOf A t k) (idxKeyJOf B t k)
      { name := some k, inOwner := some t, remarks := some .mismatch }
    if mc.1 ≠ [] then mc.1
    else indexColsLoop A B t k mc.2 ++ indexKeysLoop A B t rest

/-- The per-table body of `compareIndex`: tables missing on either side are
skipped; a missing index pushes its differences and skips the key-level
checks for the table. -/
def indexTablesLoop (A B : InformationSchema) : List String → List Comparison
  | [] => []
  | t :: rest =>
    if (lookupJR A.tables t).isNone || (lookupJR B.tables t).isNone then
      indexTablesLoop A B rest
    else
      let mi := compareSchemaObjects .index (idxJOf A t) (idxJOf B t)
        { inOwner := some t }
      if mi.1 ≠ [] then mi.1 ++ indexTablesLoop A B rest
      else indexKeysLoop A B t mi.2 ++ indexTablesLoop A B rest

/-- The `compareIndex` method; it reads no comparison options. -/
def compareIndex (A B : InformationSchema) : List Comparison :=
  indexTablesLoop A B (unionKeys A.tables B.tables)

/-- The inner parameter loop shared (up to tags) by `compareProcedures` and
`compareFunctions`: the first differing parameter record is pushed and,
unless `eager`, breaks. -/
def paramsLoop (opts : ComparisonOptions) (ot : ObjectType)
    (rsA rsB : List (String × RoutineSchema)) (p : String) :
    List String → List Comparison
  | [] => []
  | q :: rest =>
    let mm := compareSchemaObjects ot (paramLookup rsA p q) (paramLookup rsB p q)
      { name := some q, inOwner := some p, remarks := some .mismatch }
    if mm.1 ≠ [] then
      mm.1 ++ (if !opts.eager then [] else paramsLoop opts ot rsA rsB p rest)
    else paramsLoop opts ot rsA rsB p rest

/-- The per-routine loop shared by `compareProcedures` and
`compareFunctions`: body comparison (with the configured whitespace policy),
then parameter presence, then parameter records. -/
def routinesLoop (opts : ComparisonOptions) (otBody otParam : ObjectType)
    (rsA rsB : List (String × RoutineSchema)) : List String → List Comparison
  | [] => []
  | p :: rest =>
    let body := compareSchemaObjects otBody (routineJROf rsA p) (routineJROf rsB p)
      { name := some p, inOwner := some "definition",
        whitespaces := some opts.whitespaces }
    let pp := compareSchemaObjects otParam (paramsJOf rsA p) (paramsJOf rsB p)
      { inOwner := some p }
    body.1 ++
      (if pp.1 ≠ [] then
        pp.1 ++ (if !opts.eager then routinesLoop opts otBody otParam rsA rsB rest
          else paramsLoop opts otParam rsA rsB p pp.2 ++
            routinesLoop opts otBody otParam rsA rsB rest)
      else paramsLoop opts otParam rsA rsB p pp.2 ++
        routinesLoop opts otBody otParam rsA rsB rest)

/-- The `compareProcedures` method. -/
def compareProcedures (opts : ComparisonOptions) (A B : InformationSchema) :
    List Comparison :=
  let pres := compareSchemaObjects .procedure (some (routinesToJ A.procedures))
    (some (routinesToJ B.procedures)) {}
  pres.1 ++ routinesLoop opts .procedure .procedureParameter A.procedures
    B.procedures pres.2

/-- The `compareFunctions` method. -/
def compareFunctions (opts : ComparisonOptions) (A B : InformationSchema) :
    List Comparison :=
  let pres := compareSchemaObjects .function (some (routinesToJ A.functions))
    (some (routinesToJ B.functions)) {}
  pres.1 ++ routinesLoop opts .function .functionParameter A.functions
    B.functions pres.2

/-- The `compare` method: concatenation of the four passes. -/
def compare (opts : ComparisonOptions) (A B : InformationSchema) :
    List Comparison :=
  compareTables opts A B ++ compareIndex A B ++ compareProcedures opts A B ++
    compareFunctions opts A B

theorem lookupJR_map {α β : Type} (f : α → β) (l : List (String × α)) (key : String) :
    lookupJR (l.map (fun p => (p.1, f p.2))) key = (lookupJR l key).map f := by
  induction l with
  | nil => rfl
  | cons p rest ih =>
    obtain ⟨a, v⟩ := p
    by_cases h : a = key
    · simp [lookupJR, h]
    · simp [lookupJR, h, ih]

theorem lookupJR_isSome_iff {α : Type} (l : List (String × α)) (k : String) :
    (lookupJR l k).isSome = true ↔ k ∈ keysOf l := by
  induction l with
  | nil => simp [lookupJR, keysOf]
  | cons p rest ih =>
    obtain ⟨a, v⟩ := p
    by_cases h : a = k
    · simp [lookupJR, keysOf, h]
    · have h2 : ¬ k = a := fun hh => h hh.symm
      simp [lookupJR, keysOf, h, h2, ih]

theorem mem_dedupKeys (l : List String) : ∀ (seen : List String) (x : String),
    x ∈ dedupKeys seen l ↔ x ∈ l ∧ x ∉ seen := by
  induction l with
  | nil => intro seen x; simp [dedupKeys]
  | cons k rest ih =>
    intro seen x
    by_cases hk : k ∈ seen
    · simp only [dedupKeys, if_pos hk, ih]
      constructor
      · rintro ⟨hx, hs⟩; exact ⟨List.mem_cons_of_mem _ hx, hs⟩
      · rintro ⟨hx, hs⟩
        rcases List.mem_cons.mp hx with rfl | hx
        · exact absurd hk hs
        · exact ⟨hx, hs⟩
    · simp only [dedupKeys, if_neg hk, List.mem_cons, ih]
      constructor
      · rintro (rfl | ⟨hx, hs⟩)
        · exact ⟨Or.inl rfl, hk⟩
        · exact ⟨Or.inr hx, fun hc => hs (Or.inr hc)⟩
      · rintro ⟨rfl | hx, hs⟩
        · exact Or.inl rfl
        · by_cases hxk : x = k
          · exact Or.inl hxk
          · exact Or.inr ⟨hx, fun hc => hc.elim hxk hs⟩

theorem nodup_dedupKeys (l : List String) : ∀ seen : List String,
    (dedupKeys seen l).Nodup := by
  induction l with
  | nil => intro seen; simp [dedupKeys]
  | cons k rest ih =>
    intro seen
    by_cases hk : k ∈ seen
    · simpa [dedupKeys, if_pos hk] using ih seen
    · simp only [dedupKeys, if_neg hk, List.nodup_cons]
      refine ⟨fun hc => ?_, ih _⟩
      have := (mem_dedupKeys rest (k :: seen) k).mp hc
      exact this.2 (List.mem_cons_self _ _)

theorem mem_unionKeys {α : Type} (A B : List (String × α)) (x : String) :
    x ∈ unionKeys A B ↔ x ∈ keysOf A ∨ x ∈ keysOf B := by
  unfold unionKeys
  rw [mem_dedupKeys]
  simp

theorem nodup_unionKeys {α : Type} (A B : List (String × α)) :
    (unionKeys A B).Nodup :=
  nodup_dedupKeys _ _

theorem csoMismatchCond_self (v : JSVal) : csoMismatchCond v v = false := by
  cases v <;> simp [csoMismatchCond]

theorem csoAdjust_some (options : CsoOptions) (v : JSVal) :
    ∃ w, csoAdjust options (some v) = some w := by
  cases v <;> simp [csoAdjust]
  split <;> simp

theorem csoEntry_self (ot : ObjectType) (A : JRecord) (options : CsoOptions)
    (p : String) (hp : (lookupJR A p).isSome = true) :
    csoEntry ot A A options p = none := by
  rcases Option.isSome_iff_exists.mp hp with ⟨v, hv⟩
  rcases csoAdjust_some options v with ⟨w, hw⟩
  simp [csoEntry, hv, hw, csoMismatchCond_self]

theorem csoLoop_self_diff (ot : ObjectType) (A : JRecord) (options : CsoOptions)
    (l : List String) (h : ∀ p ∈ l, (lookupJR A p).isSome = true) :
    (csoLoop ot A A options l).1 = [] := by
  induction l with
  | nil => rfl
  | cons p rest ih =>
    have hp := csoEntry_self ot A options p (h p (List.mem_cons_self _ _))
    simp only [csoLoop, hp]
    exact ih fun q hq => h q (List.mem_cons_of_mem _ hq)

theorem compareSchemaObjects_self (ot : ObjectType) (X : Option JRecord)
    (options : CsoOptions) : (compareSchemaObjects ot X X options).1 = [] := by
  unfold compareSchemaObjects
  apply csoLoop_self_diff
  intro p hp
  rcases (mem_unionKeys _ _ p).mp hp with h | h <;>
    exact (lookupJR_isSome_iff _ p).mpr h

theorem csoLoop_length_le_one (ot : ObjectType) (A B : JRecord)
    (options : CsoOptions) (hname : csoNameTruthy options = true)
    (l : List String) : ((csoLoop ot A B options l).1).length ≤ 1 := by
  induction l with
  | nil => simp [csoLoop]
  | cons p rest ih =>
    simp only [csoLoop]
    cases csoEntry ot A B options p with
    | none => exact ih
    | some c => simp [hname]

/-- C1: the claim is that the table pass compares table's column mappings of
document A and document B as a presence pass and reports every one-sided
column.  The code instead passes `this.schema.tables[table].columns` for both
arguments, so a column present only in document B is never reported: at the
failing input below (table `t` on both sides, column `c` only in B), the
whole comparison is empty under either eagerness, where the claim requires a
`table.column` comparison owned by `t`. -/
theorem C1_one_sided_column_unreported :
    compare ⟨false, false, false⟩
      ⟨[("t", ⟨"InnoDB", []⟩)], [("t", [])], [], []⟩
      ⟨[("t", ⟨"InnoDB", [("c", [("type", JSVal.str "int")])]⟩)], [("t", [])], [], []⟩
      = [] ∧
    compare ⟨true, false, false⟩
      ⟨[("t", ⟨"InnoDB", []⟩)], [("t", [])], [], []⟩
      ⟨[("t", ⟨"InnoDB", [("c", [("type", JSVal.str "int")])]⟩)], [("t", [])], [], []⟩
      = [] := by
  constructor <;> rfl

/-- C2: the claim is that a table with exactly two columns missing on one
side yields exactly one `table.column` difference under `eager = false` and
exactly two under `eager = true`.  When the two columns are missing on the A
side (present only in B), the code emits no `table.column` difference at all
under either flag, because the presence pass compares A's columns with
themselves and the per-column loop only iterates A's column names. -/
theorem C2_two_missing_columns_in_A_unreported :
    compare ⟨false, false, false⟩
      ⟨[("t", ⟨"InnoDB", []⟩)], [("t", [])], [], []⟩
      ⟨[("t", ⟨"InnoDB", [("c1", [("type", JSVal.str "int")]),
          ("c2", [("type", JSVal.str "text")])]⟩)], [("t", [])], [], []⟩
      = [] ∧
    compare ⟨true, false, false⟩
      ⟨[("t", ⟨"InnoDB", []⟩)], [("t", [])], [], []⟩
      ⟨[("t", ⟨"InnoDB", [("c1", [("type", JSVal.str "int")]),
          ("c2", [("type", JSVal.str "text")])]⟩)], [("t", [])], [], []⟩
      = [] := by
  constructor <;> rfl

/-- C7 counterexample: the claim quantifies over every options value in which
`options.name` is given, but the short-circuit tests JS truthiness, so the
given-but-empty name `""` never stops the loop: with two keys missing from B
the call returns two differences, not at most one. -/
theorem C7_counterexample :
    ({ name := some "" } : CsoOptions).name = some "" ∧
    ((compareSchemaObjects .table (some [("x", JSVal.num 1), ("y", JSVal.num 2)])
      (some []) { name := some "" }).1).length = 2 :=
  ⟨rfl, rfl⟩

/-- C7 (amended): for every objectType, mappings and options in which
`options.name` is given and non-empty (truthy), `compareSchemaObjects` stops
processing further keys as soon as one difference has been emitted, so its
returned differences list has length at most one. -/
theorem C7_name_short_circuit (ot : ObjectType) (A B : Option JRecord)
    (options : CsoOptions) (s : String) (hname : options.name = some s)
    (hs : s ≠ "") : ((compareSchemaObjects ot A B options).1).length ≤ 1 := by
  unfold compareSchemaObjects
  apply csoLoop_length_le_one
  simp [csoNameTruthy, hname, hs]

/-- C7 witness: the amended short-circuit theorem applied at a concrete
truthy name. -/
theorem C7_name_short_circuit_witness :
    ({ name := some "n" } : CsoOptions).name = some "n" ∧ "n" ≠ "" ∧
    ((compareSchemaObjects .table (some [("x", JSVal.num 1), ("y", JSVal.num 2)])
      (some []) { name := some "n" }).1).length ≤ 1 :=
  ⟨rfl, by decide,
    C7_name_short_circuit .table (some [("x", JSVal.num 1), ("y", JSVal.num 2)])
      (some []) { name := some "n" } "n" rfl (by decide)⟩

theorem columnsLoop_self (opts : ComparisonOptions) (A : InformationSchema)
    (t : String) (l : List String) : columnsLoop opts A A t l = [] := by
  induction l with
  | nil => rfl
  | cons c rest ih =>
    simp [columnsLoop, compareSchemaObjects_self, ih]

theorem tablesLoop_self (opts : ComparisonOptions) (A : InformationSchema)
    (l : List String) : tablesLoop opts A A l = [] := by
  induction l with
  | nil => rfl
  | cons t rest ih =>
    simp [tablesLoop, compareSchemaObjects_self, columnsLoop_self, ih]

theorem compareTables_self (opts : ComparisonOptions) (A : InformationSchema) :
    compareTables opts A A = [] := by
  unfold compareTables
  simp [compareSchemaObjects_self, tablesLoop_self]

theorem indexColsLoop_self (A : InformationSchema) (t k : String)
    (l : List String) : indexColsLoop A A t k l = [] := by
  induction l with
  | nil => rfl
  | cons c rest ih =>
    simp [indexColsLoop, compareSchemaObjects_self, ih]

theorem indexKeysLoop_self (A : InformationSchema) (t : String)
    (l : List String) : indexKeysLoop A A t l = [] := by
  induction l with
  | nil => rfl
  | cons k rest ih =>
    simp [indexKeysLoop, compareSchemaObjects_self, indexColsLoop_self, ih]

theorem indexTablesLoop_self (A : InformationSchema) (l : List String) :
    indexTablesLoop A A l = [] := by
  induction l with
  | nil => rfl
  | cons t rest ih =>
    unfold indexTablesLoop
    split
    · exact ih
    · simp [compareSchemaObjects_self, indexKeysLoop_self, ih]

theorem compareIndex_self (A : InformationSchema) : compareIndex A A = [] :=
  indexTablesLoop_self A _

theorem paramsLoop_self (opts : ComparisonOptions) (ot : ObjectType)
    (rs : List (String × RoutineSchema)) (p : String) (l : List String) :
    paramsLoop opts ot rs rs p l = [] := by
  induction l with
  | nil => rfl
  | cons q rest ih =>
    simp [paramsLoop, compareSchemaObjects_self, ih]

theorem routinesLoop_self (opts : ComparisonOptions) (otBody otParam : ObjectType)
    (rs : List (String × RoutineSchema)) (l : List String) :
    routinesLoop opts otBody otParam rs rs l = [] := by
  induction l with
  | nil => rfl
  | cons p rest ih =>
    simp [routinesLoop, compareSchemaObjects_self, paramsLoop_self, ih]

theorem compareProcedures_self (opts : ComparisonOptions) (A : InformationSchema) :
    compareProcedures opts A A = [] := by
  unfold compareProcedures
  simp [compareSchemaObjects_self, routinesLoop_self]

theorem compareFunctions_self (opts : ComparisonOptions) (A : InformationSchema) :
    compareFunctions opts A A = [] := by
  unfold compareFunctions
  simp [compareSchemaObjects_self, routinesLoop_self]

/-- C4: for all documents A and B of identical structure (in the model,
structurally equal documents), `compare(A, B)` is the empty sequence; in
particular `compare(A, A)` is empty for every document A and every options
value. -/
theorem C4_compare_identical_empty (opts : ComparisonOptions)
    (A B : InformationSchema) (h : A = B) : compare opts A B = [] := by
  subst h
  unfold compare
  simp [compareTables_self, compareIndex_self, compareProcedures_self,
    compareFunctions_self]

/-- C4 witness: a concrete document with a table, a composite column record,
an index, a procedure and a function compares equal to itself. -/
theorem C4_compare_identical_empty_witness :
    compare ⟨false, true, true⟩
      ⟨[("t", ⟨"InnoDB", [("c", [("type", JSVal.str "int"), ("d", JSVal.null)])]⟩)],
       [("t", [("ix", [("c", [("sequence_no", JSVal.num 1)])])])],
       [("p", ⟨"BEGIN END", [("q", [("mode", JSVal.str "IN")])]⟩)],
       [("f", ⟨"RETURN 1", []⟩)]⟩
      ⟨[("t", ⟨"InnoDB", [("c", [("type", JSVal.str "int"), ("d", JSVal.null)])]⟩)],
       [("t", [("ix", [("c", [("sequence_no", JSVal.num 1)])])])],
       [("p", ⟨"BEGIN END", [("q", [("mode", JSVal.str "IN")])]⟩)],
       [("f", ⟨"RETURN 1", []⟩)]⟩ = [] :=
  C4_compare_identical_empty ⟨false, true, true⟩ _ _ rfl

theorem csoMismatchCond_null_left (w : JSVal) :
    csoMismatchCond .null w = false := by
  cases w <;> rfl

theorem csoMismatchCond_null_right (v : JSVal) :
    csoMismatchCond v .null = false := by
  cases v <;> rfl

theorem csoNameTruthy_of_none (options : CsoOptions)
    (hname : options.name = none) : csoNameTruthy options = false := by
  simp [csoNameTruthy, hname]

theorem csoNameOrProp_of_none (options : CsoOptions)
    (hname : options.name = none) (p : String) :
    csoNameOrProp options p = p := by
  simp [csoNameOrProp, hname]

theorem csoEntry_name (ot : ObjectType) (A B : JRecord) (options : CsoOptions)
    (hname : options.name = none) (p : String) (c : Comparison)
    (h : csoEntry ot A B options p = some c) : c.name = p := by
  unfold csoEntry at h
  rcases hva : csoAdjust options (lookupJR A p) with _ | va <;>
    rcases hvb : csoAdjust options (lookupJR B p) with _ | vb <;>
      simp only [hva, hvb] at h
  · cases Option.some.inj h
    exact csoNameOrProp_of_none options hname p
  · cases Option.some.inj h
    exact csoNameOrProp_of_none options hname p
  · cases Option.some.inj h
    exact csoNameOrProp_of_none options hname p
  · split at h
    · cases Option.some.inj h
      exact csoNameOrProp_of_none options hname p
    · exact absurd h (by simp)

theorem csoLoop_names_mem (ot : ObjectType) (A B : JRecord)
    (options : CsoOptions) (hname : options.name = none) (l : List String) :
    ∀ c ∈ (csoLoop ot A B options l).1, c.name ∈ l := by
  induction l with
  | nil => intro c hc; simp [csoLoop] at hc
  | cons p rest ih =>
    intro c hc
    simp only [csoLoop] at hc
    rcases he : csoEntry ot A B options p with _ | c0 <;> simp only [he] at hc
    · exact List.mem_cons_of_mem _ (ih c hc)
    · rw [csoNameTruthy_of_none options hname] at hc
      simp only [Bool.false_eq_true, if_false, List.mem_cons] at hc
      rcases hc with rfl | hc
      · exact (csoEntry_name ot A B options hname p c he) ▸
          List.mem_cons_self _ _
      · exact List.mem_cons_of_mem _ (ih c hc)

theorem csoLoop_nodiff_key (ot : ObjectType) (A B : JRecord)
    (options : CsoOptions) (hname : options.name = none) (k : String)
    (he : csoEntry ot A B options k = none) (l : List String) (hk : k ∈ l)
    (hnd : l.Nodup) :
    k ∈ (csoLoop ot A B options l).2 ∧
    ∀ c ∈ (csoLoop ot A B options l).1, c.name ≠ k := by
  induction l with
  | nil => cases hk
  | cons p rest ih =>
    rcases List.nodup_cons.mp hnd with ⟨hp, hnd2⟩
    by_cases hpk : p = k
    · subst hpk
      constructor
      · simp [csoLoop, he]
      · intro c hc
        simp only [csoLoop, he] at hc
        have := csoLoop_names_mem ot A B options hname rest c hc
        exact fun hcn => hp (hcn ▸ this)
    · have hk2 : k ∈ rest := by
        rcases List.mem_cons.mp hk with rfl | h
        · exact absurd rfl hpk
        · exact h
      rcases ih hk2 hnd2 with ⟨ihnd, ihdf⟩
      constructor
      · simp only [csoLoop]
        rcases hep : csoEntry ot A B options p with _ | c0
        · simpa using Or.inr ihnd
        · rw [csoNameTruthy_of_none options hname]
          simpa using ihnd
      · intro c hc
        simp only [csoLoop] at hc
        rcases hep : csoEntry ot A B options p with _ | c0 <;>
          simp only [hep] at hc
        · exact ihdf c hc
        · rw [csoNameTruthy_of_none options hname] at hc
          simp only [Bool.false_eq_true, if_false, List.mem_cons] at hc
          rcases hc with rfl | hc
          · rw [csoEntry_name ot A B options hname p c hep]
            exact hpk
          · exact ihdf c hc

/-- C9 counterexample: with `options.name` given and an earlier key already
differing, the loop breaks before reaching the null-valued key `b`, so `b`
(present in both mappings, with `A.b = null`) is never added to the
equal-keys set — the returned set is empty. -/
theorem C9_counterexample :
    lookupJR ([("a", JSVal.num 1), ("b", JSVal.null)] : JRecord) "b"
      = some JSVal.null ∧
    lookupJR ([("b", JSVal.num 5)] : JRecord) "b" = some (JSVal.num 5) ∧
    (compareSchemaObjects .table (some [("a", JSVal.num 1), ("b", JSVal.null)])
      (some [("b", JSVal.num 5)]) { name := some "n" }).2 = [] :=
  ⟨rfl, rfl, rfl⟩

/-- C9 (amended): for every call to `compareSchemaObjects` in which
`options.name` is absent, and every key present in both mappings, if either
side's value is `null` then the scalar-mismatch branch is never taken
(`typeof null` is `"object"`): no Comparison is emitted for that key and the
key is added to the equal-keys set, even when the other side's value is a
differing non-null scalar. -/
theorem C9_null_key_equal (ot : ObjectType) (_A _B : Option JRecord)
    (options : CsoOptions) (hname : options.name = none) (k : String)
    (va vb : JSVal) (ha : lookupJR (_A.getD []) k = some va)
    (hb : lookupJR (_B.getD []) k = some vb)
    (hnull : va = .null ∨ vb = .null) :
    k ∈ (compareSchemaObjects ot _A _B options).2 ∧
    ∀ c ∈ (compareSchemaObjects ot _A _B options).1, c.name ≠ k := by
  have hadjn : csoAdjust options (some JSVal.null) = some JSVal.null := rfl
  have he : csoEntry ot (_A.getD []) (_B.getD []) options k = none := by
    rcases hnull with rfl | rfl
    · rcases csoAdjust_some options vb with ⟨wb, hwb⟩
      simp only [csoEntry, ha, hb, hadjn, hwb]
      simp [csoMismatchCond_null_left]
    · rcases csoAdjust_some options va with ⟨wa, hwa⟩
      simp only [csoEntry, ha, hb, hadjn, hwa]
      simp [csoMismatchCond_null_right]
  have hk : k ∈ unionKeys (_A.getD []) (_B.getD []) := by
    refine (mem_unionKeys _ _ k).mpr (Or.inl ?_)
    exact (lookupJR_isSome_iff _ k).mp (by simp [ha])
  exact csoLoop_nodiff_key ot _ _ options hname k he _ hk (nodup_unionKeys _ _)

/-- C9 witness: the amended theorem applied at a concrete call where `A.b` is
null and `B.b` is a differing number, with `options.name` absent. -/
theorem C9_null_key_equal_witness :
    ({ inOwner := some "t" } : CsoOptions).name = none ∧
    lookupJR ((some [("b", JSVal.null)] : Option JRecord).getD []) "b"
      = some JSVal.null ∧
    lookupJR ((some [("b", JSVal.num 5)] : Option JRecord).getD []) "b"
      = some (JSVal.num 5) ∧
    ("b" ∈ (compareSchemaObjects .table (some [("b", JSVal.null)])
        (some [("b", JSVal.num 5)]) { inOwner := some "t" }).2 ∧
      ∀ c ∈ (compareSchemaObjects .table (some [("b", JSVal.null)])
        (some [("b", JSVal.num 5)]) { inOwner := some "t" }).1, c.name ≠ "b") :=
  ⟨rfl, rfl, rfl,
    C9_null_key_equal .table (some [("b", JSVal.null)]) (some [("b", JSVal.num 5)])
      { inOwner := some "t" } rfl "b" JSVal.null (JSVal.num 5) rfl rfl (Or.inl rfl)⟩

theorem csoLoop_count (ot : ObjectType) (A B : JRecord) (options : CsoOptions)
    (hname : options.name = none) (k : String) : ∀ (l : List String),
    l.Nodup →
    ((csoLoop ot A B options l).1.map Comparison.name).count k
      + (csoLoop ot A B options l).2.count k
      = if k ∈ l then 1 else 0 := by
  intro l
  induction l with
  | nil => intro _; simp [csoLoop]
  | cons p rest ih =>
    intro hnd
    rcases List.nodup_cons.mp hnd with ⟨hp, hnd2⟩
    have ihc := ih hnd2
    by_cases hkp : k = p
    · subst hkp
      have hknr : k ∉ rest := hp
      rw [if_neg hknr] at ihc
      have h1 : ((csoLoop ot A B options rest).1.map Comparison.name).count k = 0 :=
        Nat.eq_zero_of_add_eq_zero_right ihc
      have h2 : ((csoLoop ot A B options rest).2).count k = 0 :=
        Nat.eq_zero_of_add_eq_zero_left ihc
      simp only [csoLoop]
      rcases hep : csoEntry ot A B options k with _ | c0
      · simp [List.count_cons, h1, h2]
      · rw [csoNameTruthy_of_none options hname]
        have := csoEntry_name ot A B options hname k c0 hep
        simp [List.count_cons, h1, h2, this]
    · have hif : (if k ∈ p :: rest then (1 : Nat) else 0)
          = (if k ∈ rest then 1 else 0) := by
        simp [List.mem_cons, hkp]
      simp only [csoLoop]
      rcases hep : csoEntry ot A B options p with _ | c0
      · simp only [List.count_cons]
        rw [hif, ← ihc]
        have hbeq : (p == k) = false := beq_eq_false_iff_ne.mpr
          (fun h => hkp h.symm)
        rw [hbeq]
        simp
      · rw [csoNameTruthy_of_none options hname]
        have hc0 := csoEntry_name ot A B options hname p c0 hep
        simp only [Bool.false_eq_true, if_false, List.map_cons, List.count_cons]
        rw [hif, ← ihc]
        have hbeq : (c0.name == k) = false := by
          rw [hc0]
          exact beq_eq_false_iff_ne.mpr (fun h => hkp h.symm)
        rw [hbeq]
        simp

/-- C10: when `options.name` is absent the comparator processes every key in
the union of the two key sets, and each such key either contributes exactly
one emitted Comparison (counted through its `name` field, which then equals
the key) or is added to the returned `nodiffKeys` — never both and never
neither; keys outside the union contribute nothing. -/
theorem C10_union_partition (ot : ObjectType) (_A _B : Option JRecord)
    (options : CsoOptions) (hname : options.name = none) (k : String) :
    ((compareSchemaObjects ot _A _B options).1.map Comparison.name).count k
      + (compareSchemaObjects ot _A _B options).2.count k
      = if k ∈ unionKeys (_A.getD []) (_B.getD []) then 1 else 0 := by
  unfold compareSchemaObjects
  exact csoLoop_count ot _ _ options hname k _ (nodup_unionKeys _ _)

/-- C10 witness: at a concrete call with name absent, the key `x` (a
mismatch) is counted once among the differences, the key `y` (equal on both
sides) once in the equal-keys set, and an absent key `z` nowhere. -/
theorem C10_union_partition_witness :
    ({} : CsoOptions).name = none ∧
    ((compareSchemaObjects .table (some [("x", JSVal.num 1), ("y", JSVal.num 7)])
        (some [("x", JSVal.num 2), ("y", JSVal.num 7)]) {}).1.map
        Comparison.name).count "x"
      + (compareSchemaObjects .table (some [("x", JSVal.num 1), ("y", JSVal.num 7)])
        (some [("x", JSVal.num 2), ("y", JSVal.num 7)]) {}).2.count "x"
      = if "x" ∈ unionKeys
          ((some [("x", JSVal.num 1), ("y", JSVal.num 7)] : Option JRecord).getD [])
          ((some [("x", JSVal.num 2), ("y", JSVal.num 7)] : Option JRecord).getD [])
        then 1 else 0 :=
  ⟨rfl, C10_union_partition .table (some [("x", JSVal.num 1), ("y", JSVal.num 7)])
    (some [("x", JSVal.num 2), ("y", JSVal.num 7)]) {} rfl "x"⟩

theorem csoEntry_objectType (ot : ObjectType) (A B : JRecord)
    (options : CsoOptions) (p : String) (c : Comparison)
    (h : csoEntry ot A B options p = some c) : c.objectType = ot := by
  unfold csoEntry at h
  rcases hva : csoAdjust options (lookupJR A p) with _ | va <;>
    rcases hvb : csoAdjust options (lookupJR B p) with _ | vb <;>
      simp only [hva, hvb] at h
  · cases Option.some.inj h; rfl
  · cases Option.some.inj h; rfl
  · cases Option.some.inj h; rfl
  · split at h
    · cases Option.some.inj h; rfl
    · exact absurd h (by simp)

theorem csoLoop_mem_diff (ot : ObjectType) (A B : JRecord)
    (options : CsoOptions) : ∀ (l : List String) (c : Comparison),
    c ∈ (csoLoop ot A B options l).1 →
    ∃ p ∈ l, csoEntry ot A B options p = some c := by
  intro l
  induction l with
  | nil => intro c hc; simp [csoLoop] at hc
  | cons p rest ih =>
    intro c hc
    simp only [csoLoop] at hc
    rcases hep : csoEntry ot A B options p with _ | c0 <;> simp only [hep] at hc
    · rcases ih c hc with ⟨q, hq, hqe⟩
      exact ⟨q, List.mem_cons_of_mem _ hq, hqe⟩
    · by_cases ht : csoNameTruthy options = true
      · rw [if_pos ht] at hc
        rcases List.mem_singleton.mp hc with rfl
        exact ⟨p, List.mem_cons_self _ _, hep⟩
      · rw [if_neg ht] at hc
        rcases List.mem_cons.mp hc with rfl | hc
        · exact ⟨p, List.mem_cons_self _ _, hep⟩
        · rcases ih c hc with ⟨q, hq, hqe⟩
          exact ⟨q, List.mem_cons_of_mem _ hq, hqe⟩

theorem cso_mem_diff (ot : ObjectType) (X Y : Option JRecord)
    (options : CsoOptions) (c : Comparison)
    (hc : c ∈ (compareSchemaObjects ot X Y options).1) :
    ∃ p ∈ unionKeys (X.getD []) (Y.getD []),
      csoEntry ot (X.getD []) (Y.getD []) options p = some c :=
  csoLoop_mem_diff ot _ _ options _ c hc

theorem cso_objectType (ot : ObjectType) (X Y : Option JRecord)
    (options : CsoOptions) (c : Comparison)
    (hc : c ∈ (compareSchemaObjects ot X Y options).1) : c.objectType = ot := by
  rcases cso_mem_diff ot X Y options c hc with ⟨p, _, hp⟩
  exact csoEntry_objectType ot _ _ options p c hp

theorem csoLoop_mem_of_entry (ot : ObjectType) (A B : JRecord)
    (options : CsoOptions) (hname : options.name = none) (p : String)
    (c : Comparison) (he : csoEntry ot A B options p = some c) :
    ∀ (l : List String), p ∈ l → c ∈ (csoLoop ot A B options l).1 := by
  intro l
  induction l with
  | nil => intro h; cases h
  | cons q rest ih =>
    intro hp
    simp only [csoLoop]
    rcases heq : csoEntry ot A B options q with _ | c0
    · rcases List.mem_cons.mp hp with rfl | hp2
      · rw [he] at heq; cases heq
      · exact ih hp2
    · rw [csoNameTruthy_of_none options hname]
      simp only [Bool.false_eq_true, if_false]
      rcases List.mem_cons.mp hp with rfl | hp2
      · rw [he] at heq
        exact (Option.some.inj heq) ▸ List.mem_cons_self _ _
      · exact List.mem_cons_of_mem _ (ih hp2)

theorem columnsLoop_objectType (opts : ComparisonOptions)
    (A B : InformationSchema) (t : String) : ∀ (l : List String) (c : Comparison),
    c ∈ columnsLoop opts A B t l → c.objectType = .tableColumn := by
  intro l
  induction l with
  | nil => intro c hc; simp [columnsLoop] at hc
  | cons x rest ih =>
    intro c hc
    simp only [columnsLoop] at hc
    split at hc
    · rcases List.mem_append.mp hc with h | h
      · exact cso_objectType _ _ _ _ c h
      · split at h
        · cases h
        · exact ih c h
    · exact ih c hc

theorem tablesLoop_objectType (opts : ComparisonOptions)
    (A B : InformationSchema) : ∀ (l : List String) (c : Comparison),
    c ∈ tablesLoop opts A B l → c.objectType = .tableColumn := by
  intro l
  induction l with
  | nil => intro c hc; simp [tablesLoop] at hc
  | cons t rest ih =>
    intro c hc
    simp only [tablesLoop] at hc
    split at hc
    · rcases List.mem_append.mp hc with h | h
      · exact cso_objectType _ _ _ _ c h
      · split at h
        · exact ih c h
        · rcases List.mem_append.mp h with h2 | h2
          · exact columnsLoop_objectType opts A B t _ c h2
          · exact ih c h2
    · rcases List.mem_append.mp hc with h | h
      · exact columnsLoop_objectType opts A B t _ c h
      · exact ih c h

theorem indexColsLoop_objectType (A B : InformationSchema) (t k : String) :
    ∀ (l : List String) (c : Comparison),
    c ∈ indexColsLoop A B t k l → c.objectType = .index := by
  intro l
  induction l with
  | nil => intro c hc; simp [indexColsLoop] at hc
  | cons x rest ih =>
    intro c hc
    simp only [indexColsLoop] at hc
    split at hc
    · exact cso_objectType _ _ _ _ c hc
    · exact ih c hc

theorem indexKeysLoop_objectType (A B : InformationSchema) (t : String) :
    ∀ (l : List String) (c : Comparison),
    c ∈ indexKeysLoop A B t l → c.objectType = .index := by
  intro l
  induction l with
  | nil => intro c hc; simp [indexKeysLoop] at hc
  | cons k rest ih =>
    intro c hc
    simp only [indexKeysLoop] at hc
    split at hc
    · exact cso_objectType _ _ _ _ c hc
    · rcases List.mem_append.mp hc with h | h
      · exact indexColsLoop_objectType A B t k _ c h
      · exact ih c h

theorem indexTablesLoop_objectType (A B : InformationSchema) :
    ∀ (l : List String) (c : Comparison),
    c ∈ indexTablesLoop A B l → c.objectType = .index := by
  intro l
  induction l with
  | nil => intro c hc; simp [indexTablesLoop] at hc
  | cons t rest ih =>
    intro c hc
    simp only [indexTablesLoop] at hc
    split at hc
    · exact ih c hc
    · split at hc
      · rcases List.mem_append.mp hc with h | h
        · exact cso_objectType _ _ _ _ c h
        · exact ih c h
      · rcases List.mem_append.mp hc with h | h
        · exact indexKeysLoop_objectType A B t _ c h
        · exact ih c h

theorem compareIndex_objectType (A B : InformationSchema) (c : Comparison)
    (hc : c ∈ compareIndex A B) : c.objectType = .index :=
  indexTablesLoop_objectType A B _ c hc

theorem paramsLoop_objectType (opts : ComparisonOptions) (ot : ObjectType)
    (rsA rsB : List (String × RoutineSchema)) (p : String) :
    ∀ (l : List String) (c : Comparison),
    c ∈ paramsLoop opts ot rsA rsB p l → c.objectType = ot := by
  intro l
  induction l with
  | nil => intro c hc; simp [paramsLoop] at hc
  | cons q rest ih =>
    intro c hc
    simp only [paramsLoop] at hc
    split at hc
    · rcases List.mem_append.mp hc with h | h
      · exact cso_objectType _ _ _ _ c h
      · split at h
        · cases h
        · exact ih c h
    · exact ih c hc

theorem routinesLoop_objectType (opts : ComparisonOptions)
    (otBody otParam : ObjectType) (rsA rsB : List (String × RoutineSchema)) :
    ∀ (l : List String) (c : Comparison),
    c ∈ routinesLoop opts otBody otParam rsA rsB l →
    c.objectType = otBody ∨ c.objectType = otParam := by
  intro l
  induction l with
  | nil => intro c hc; simp [routinesLoop] at hc
  | cons p rest ih =>
    intro c hc
    simp only [routinesLoop] at hc
    rcases List.mem_append.mp hc with h | h
    · exact Or.inl (cso_objectType _ _ _ _ c h)
    · split at h
      · rcases List.mem_append.mp h with h2 | h2
        · exact Or.inr (cso_objectType _ _ _ _ c h2)
        · split at h2
          · exact ih c h2
          · rcases List.mem_append.mp h2 with h3 | h3
            · exact Or.inr (paramsLoop_objectType opts otParam rsA rsB p _ c h3)
            · exact ih c h3
      · rcases List.mem_append.mp h with h2 | h2
        · exact Or.inr (paramsLoop_objectType opts otParam rsA rsB p _ c h2)
        · exact ih c h2

theorem compareProcedures_objectType (opts : ComparisonOptions)
    (A B : InformationSchema) (c : Comparison)
    (hc : c ∈ compareProcedures opts A B) :
    c.objectType = .procedure ∨ c.objectType = .procedureParameter := by
  unfold compareProcedures at hc
  rcases List.mem_append.mp hc with h | h
  · exact Or.inl (cso_objectType _ _ _ _ c h)
  · exact routinesLoop_objectType opts _ _ _ _ _ c h

theorem compareFunctions_objectType (opts : ComparisonOptions)
    (A B : InformationSchema) (c : Comparison)
    (hc : c ∈ compareFunctions opts A B) :
    c.objectType = .function ∨ c.objectType = .functionParameter := by
  unfold compareFunctions at hc
  rcases List.mem_append.mp hc with h | h
  · exact Or.inl (cso_objectType _ _ _ _ c h)
  · exact routinesLoop_objectType opts _ _ _ _ _ c h

theorem lookupJR_tablesToJ (ts : List (String × TableSchema)) (p : String) :
    lookupJR (tablesToJ ts) p = (lookupJR ts p).map tableToJ :=
  lookupJR_map tableToJ ts p

theorem tables_presence_entry_some (A B : InformationSchema) (p : String)
    (hx : (lookupJR A.tables p).isSome ≠ (lookupJR B.tables p).isSome) :
    ∃ c, csoEntry .table (tablesToJ A.tables) (tablesToJ B.tables) {} p = some c
      ∧ c.name = p ∧ c.objectType = .table := by
  rcases hA : lookupJR A.tables p with _ | tA <;>
    rcases hB : lookupJR B.tables p with _ | tB
  · rw [hA, hB] at hx; exact absurd rfl hx
  · refine ⟨⟨.table, p, none, some .missing, some .exist⟩, ?_, rfl, rfl⟩
    simp only [csoEntry, lookupJR_tablesToJ, hA, hB]
    rfl
  · refine ⟨⟨.table, p, none, some .exist, some .missing⟩, ?_, rfl, rfl⟩
    simp only [csoEntry, lookupJR_tablesToJ, hA, hB]
    rfl
  · rw [hA, hB] at hx; exact absurd rfl hx

theorem tables_presence_entry_inv (A B : InformationSchema) (p : String)
    (c : Comparison)
    (h : csoEntry .table (tablesToJ A.tables) (tablesToJ B.tables) {} p = some c)
    (hp : p ∈ unionKeys (tablesToJ A.tables) (tablesToJ B.tables)) :
    (lookupJR A.tables p).isSome ≠ (lookupJR B.tables p).isSome := by
  rcases hA : lookupJR A.tables p with _ | tA <;>
    rcases hB : lookupJR B.tables p with _ | tB
  · exfalso
    rcases (mem_unionKeys _ _ p).mp hp with hm | hm
    · have h1 := (lookupJR_isSome_iff (tablesToJ A.tables) p).mpr hm
      rw [lookupJR_tablesToJ, hA] at h1
      simp at h1
    · have h1 := (lookupJR_isSome_iff (tablesToJ B.tables) p).mpr hm
      rw [lookupJR_tablesToJ, hB] at h1
      simp at h1
  · simp [hA, hB]
  · simp [hA, hB]
  · exfalso
    have hnone : csoEntry .table (tablesToJ A.tables) (tablesToJ B.tables) {} p
        = none := by
      simp only [csoEntry, lookupJR_tablesToJ, hA, hB]
      rfl
    rw [hnone] at h
    exact Option.noConfusion h

/-- C3: for all documents A and B and every table name t, `compare(A, B)`
contains a Comparison with objectType `table` and name t if and only if
exactly one of `A.tables[t]` and `B.tables[t]` exists. -/
theorem C3_table_difference_iff (opts : ComparisonOptions)
    (A B : InformationSchema) (t : String) :
    (∃ c ∈ compare opts A B, c.objectType = .table ∧ c.name = t) ↔
    (lookupJR A.tables t).isSome ≠ (lookupJR B.tables t).isSome := by
  constructor
  · rintro ⟨c, hc, hty, hn⟩
    unfold compare at hc
    rcases List.mem_append.mp hc with h | hfun
    · rcases List.mem_append.mp h with h2 | hproc
      · rcases List.mem_append.mp h2 with htab | hidx
        · simp only [compareTables] at htab
          rcases List.mem_append.mp htab with h3 | h3
          · rcases cso_mem_diff _ _ _ _ c h3 with ⟨p, hpu, hpe⟩
            simp only [Option.getD_some] at hpu hpe
            have hx := tables_presence_entry_inv A B p c hpe hpu
            have hnp := csoEntry_name _ _ _ _ rfl p c hpe
            rw [hn] at hnp
            rw [hnp]
            exact hx
          · have h4 := tablesLoop_objectType opts A B _ c h3
            rw [h4] at hty
            exact ObjectType.noConfusion hty
        · have h4 := compareIndex_objectType A B c hidx
          rw [h4] at hty
          exact ObjectType.noConfusion hty
      · rcases compareProcedures_objectType opts A B c hproc with h4 | h4 <;>
          (rw [h4] at hty; exact ObjectType.noConfusion hty)
    · rcases compareFunctions_objectType opts A B c hfun with h4 | h4 <;>
        (rw [h4] at hty; exact ObjectType.noConfusion hty)
  · intro hx
    rcases tables_presence_entry_some A B t hx with ⟨c, hce, hcn, hcty⟩
    have htu : t ∈ unionKeys (tablesToJ A.tables) (tablesToJ B.tables) := by
      apply (mem_unionKeys _ _ t).mpr
      rcases hA : lookupJR A.tables t with _ | tA
      · refine Or.inr ?_
        have hBs : (lookupJR B.tables t).isSome = true := by
          rcases hb : (lookupJR B.tables t).isSome
          · rw [hA, hb] at hx
            simp at hx
          · rfl
        apply (lookupJR_isSome_iff _ t).mp
        rw [lookupJR_tablesToJ]
        simpa using hBs
      · refine Or.inl ?_
        apply (lookupJR_isSome_iff _ t).mp
        rw [lookupJR_tablesToJ, hA]
        rfl
    have hmem : c ∈ (compareSchemaObjects .table (some (tablesToJ A.tables))
        (some (tablesToJ B.tables)) ({} : CsoOptions)).1 := by
      simp only [compareSchemaObjects, Option.getD_some]
      exact csoLoop_mem_of_entry .table _ _ ({} : CsoOptions) rfl t c hce _ htu
    refine ⟨c, ?_, hcty, hcn⟩
    unfold compare
    apply List.mem_append.mpr
    apply Or.inl
    apply List.mem_append.mpr
    apply Or.inl
    apply List.mem_append.mpr
    apply Or.inl
    simp only [compareTables]
    exact List.mem_append.mpr (Or.inl hmem)

/-- State-threaded rendition of the comparator loop, used to express the
frame property: the pair of mapping objects reachable from the arguments is
threaded through every iteration, and only the local `diff` and `nodiffKeys`
accumulators are written. -/
def csoLoopSt (objectType : ObjectType) (options : CsoOptions) :
    JRecord × JRecord → List String →
    (List Comparison × List String) × (JRecord × JRecord)
  | σ, [] => (([], []), σ)
  | σ, prop :: rest =>
    match csoEntry objectType σ.1 σ.2 options prop with
    | some c =>
      if csoNameTruthy options then (([c], []), σ)
      else
        let r := csoLoopSt objectType options σ rest
        ((c :: r.1.1, r.1.2), r.2)
    | none =>
      let r := csoLoopSt objectType options σ rest
      ((r.1.1, prop :: r.1.2), r.2)

/-- State-threaded `compareSchemaObjects`: result paired with the final state
of the two mappings. -/
def compareSchemaObjectsSt (objectType : ObjectType) (_A _B : Option JRecord)
    (options : CsoOptions) :
    (List Comparison × List String) × (JRecord × JRecord) :=
  let A := _A.getD []
  let B := _B.getD []
  csoLoopSt objectType options (A, B) (unionKeys A B)

theorem csoLoopSt_frame (ot : ObjectType) (options : CsoOptions)
    (σ : JRecord × JRecord) : ∀ (l : List String),
    (csoLoopSt ot options σ l).2 = σ := by
  intro l
  induction l with
  | nil => rfl
  | cons p rest ih =>
    simp only [csoLoopSt]
    rcases csoEntry ot σ.1 σ.2 options p with _ | c
    · exact ih
    · rcases csoNameTruthy options with _ | _ <;> simp [ih]

theorem csoLoopSt_agree (ot : ObjectType) (options : CsoOptions)
    (σ : JRecord × JRecord) : ∀ (l : List String),
    (csoLoopSt ot options σ l).1 = csoLoop ot σ.1 σ.2 options l := by
  intro l
  induction l with
  | nil => rfl
  | cons p rest ih =>
    simp only [csoLoopSt, csoLoop]
    rcases csoEntry ot σ.1 σ.2 options p with _ | c
    · simp [ih]
    · rcases csoNameTruthy options with _ | _ <;> simp [ih]

/-- State-threaded inner column loop of `compareTables`. -/
def columnsLoopSt (opts : ComparisonOptions) (t : String) :
    InformationSchema × InformationSchema → List String →
    List Comparison × (InformationSchema × InformationSchema)
  | σ, [] => ([], σ)
  | σ, c :: rest =>
    let mm := compareSchemaObjects .tableColumn (columnLookup σ.1 t c)
      (columnLookup σ.2 t c) { name := some c, inOwner := some t }
    if mm.1 ≠ [] then
      if !opts.eager then (mm.1, σ)
      else
        let r := columnsLoopSt opts t σ rest
        (mm.1 ++ r.1, r.2)
    else columnsLoopSt opts t σ rest

/-- State-threaded table loop of `compareTables`. -/
def tablesLoopSt (opts : ComparisonOptions) :
    InformationSchema × InformationSchema → List String →
    List Comparison × (InformationSchema × InformationSchema)
  | σ, [] => ([], σ)
  | σ, t :: rest =>
    let mc := compareSchemaObjects .tableColumn (colsJOf σ.1 t) (colsJOf σ.1 t)
      { inOwner := some t }
    if mc.1 ≠ [] then
      if !opts.eager then
        let r := tablesLoopSt opts σ rest
        (mc.1 ++ r.1, r.2)
      else
        let rc := columnsLoopSt opts t σ mc.2
        let r := tablesLoopSt opts rc.2 rest
        (mc.1 ++ rc.1 ++ r.1, r.2)
    else
      let rc := columnsLoopSt opts t σ mc.2
      let r := tablesLoopSt opts rc.2 rest
      (rc.1 ++ r.1, r.2)

/-- State-threaded `compareTables`. -/
def compareTablesSt (opts : ComparisonOptions)
    (σ : InformationSchema × InformationSchema) :
    List Comparison × (InformationSchema × InformationSchema) :=
  let pres := compareSchemaObjects .table (some (tablesToJ σ.1.tables))
    (some (tablesToJ σ.2.tables)) {}
  let r := tablesLoopSt opts σ pres.2
  (pres.1 ++ r.1, r.2)

/-- State-threaded innermost column loop of `compareIndex`. -/
def indexColsLoopSt (t k : String) :
    InformationSchema × InformationSchema → List String →
    List Comparison × (InformationSchema × InformationSchema)
  | σ, [] => ([], σ)
  | σ, c :: rest =>
    let mm := compareSchemaObjects .index (idxColJOf σ.1 t k c)
      (idxColJOf σ.2 t k c)
      { name := some k, inOwner := some t, remarks := some .mismatch }
    if mm.1 ≠ [] then (mm.1, σ)
    else indexColsLoopSt t k σ rest

/-- State-threaded key loop of `compareIndex`. -/
def indexKeysLoopSt (t : String) :
    InformationSchema × InformationSchema → List String →
    List Comparison × (InformationSchema × InformationSchema)
  | σ, [] => ([], σ)
  | σ, k :: rest =>
    let mc := compareSchemaObjects .index (idxKeyJOf σ.1 t k) (idxKeyJOf σ.2 t k)
      { name := some k, inOwner := some t, remarks := some .mismatch }
    if mc.1 ≠ [] then (mc.1, σ)
    else
      let rc := indexColsLoopSt t k σ mc.2
      let r := indexKeysLoopSt t rc.2 rest
      (rc.1 ++ r.1, r.2)

/-- State-threaded table loop of `compareIndex`. -/
def indexTablesLoopSt :
    InformationSchema × InformationSchema → List String →
    List Comparison × (InformationSchema × InformationSchema)
  | σ, [] => ([], σ)
  | σ, t :: rest =>
    if (lookupJR σ.1.tables t).isNone || (lookupJR σ.2.tables t).isNone then
      indexTablesLoopSt σ rest
    else
      let mi := compareSchemaObjects .index (idxJOf σ.1 t) (idxJOf σ.2 t)
        { inOwner := some t }
      if mi.1 ≠ [] then
        let r := indexTablesLoopSt σ rest
        (mi.1 ++ r.1, r.2)
      else
        let rk := indexKeysLoopSt t σ mi.2
        let r := indexTablesLoopSt rk.2 rest
        (rk.1 ++ r.1, r.2)

/-- State-threaded `compareIndex`. -/
def compareIndexSt (σ : InformationSchema × InformationSchema) :
    List Comparison × (InformationSchema × InformationSchema) :=
  indexTablesLoopSt σ (unionKeys σ.1.tables σ.2.tables)

/-- State-threaded parameter loop of the routine passes. -/
def paramsLoopSt (opts : ComparisonOptions) (ot : ObjectType) (p : String)
    (sel : InformationSchema → List (String × RoutineSchema)) :
    InformationSchema × InformationSchema → List String →
    List Comparison × (InformationSchema × InformationSchema)
  | σ, [] => ([], σ)
  | σ, q :: rest =>
    let mm := compareSchemaObjects ot (paramLookup (sel σ.1) p q)
      (paramLookup (sel σ.2) p q)
      { name := some q, inOwner := some p, remarks := some .mismatch }
    if mm.1 ≠ [] then
      if !opts.eager then (mm.1, σ)
      else
        let r := paramsLoopSt opts ot p sel σ rest
        (mm.1 ++ r.1, r.2)
    else paramsLoopSt opts ot p sel σ rest

/-- State-threaded routine loop of the routine passes. -/
def routinesLoopSt (opts : ComparisonOptions) (otBody otParam : ObjectType)
    (sel : InformationSchema → List (String × RoutineSchema)) :
    InformationSchema × InformationSchema → List String →
    List Comparison × (InformationSchema × InformationSchema)
  | σ, [] => ([], σ)
  | σ, p :: rest =>
    let body := compareSchemaObjects otBody (routineJROf (sel σ.1) p)
      (routineJROf (sel σ.2) p)
      { name := some p, inOwner := some "definition",
        whitespaces := some opts.whitespaces }
    let pp := compareSchemaObjects otParam (paramsJOf (sel σ.1) p)
      (paramsJOf (sel σ.2) p) { inOwner := some p }
    if pp.1 ≠ [] then
      if !opts.eager then
        let r := routinesLoopSt opts otBody otParam sel σ rest
        (body.1 ++ (pp.1 ++ r.1), r.2)
      else
        let rq := paramsLoopSt opts otParam p sel σ pp.2
        let r := routinesLoopSt opts otBody otParam sel rq.2 rest
        (body.1 ++ (pp.1 ++ (rq.1 ++ r.1)), r.2)
    else
      let rq := paramsLoopSt opts otParam p sel σ pp.2
      let r := routinesLoopSt opts otBody otParam sel rq.2 rest
      (body.1 ++ (rq.1 ++ r.1), r.2)

/-- State-threaded `compareProcedures`. -/
def compareProceduresSt (opts : ComparisonOptions)
    (σ : InformationSchema × InformationSchema) :
    List Comparison × (InformationSchema × InformationSchema) :=
  let pres := compareSchemaObjects .procedure (some (routinesToJ σ.1.procedures))
    (some (routinesToJ σ.2.procedures)) {}
  let r := routinesLoopSt opts .procedure .procedureParameter
    InformationSchema.procedures σ pres.2
  (pres.1 ++ r.1, r.2)

/-- State-threaded `compareFunctions`. -/
def compareFunctionsSt (opts : ComparisonOptions)
    (σ : InformationSchema × InformationSchema) :
    List Comparison × (InformationSchema × InformationSchema) :=
  let pres := compareSchemaObjects .function (some (routinesToJ σ.1.functions))
    (some (routinesToJ σ.2.functions)) {}
  let r := routinesLoopSt opts .function .functionParameter
    InformationSchema.functions σ pres.2
  (pres.1 ++ r.1, r.2)

/-- State-threaded `compare`: the two loaded documents are threaded through
the four passes and returned alongside the difference list. -/
def compareSt (opts : ComparisonOptions) (A B : InformationSchema) :
    List Comparison × (InformationSchema × InformationSchema) :=
  let r1 := compareTablesSt opts (A, B)
  let r2 := compareIndexSt r1.2
  let r3 := compareProceduresSt opts r2.2
  let r4 := compareFunctionsSt opts r3.2
  (r1.1 ++ r2.1 ++ r3.1 ++ r4.1, r4.2)

theorem columnsLoopSt_frame (opts : ComparisonOptions) (t : String) :
    ∀ (l : List String) (σ : InformationSchema × InformationSchema),
    (columnsLoopSt opts t σ l).2 = σ := by
  intro l
  induction l with
  | nil => intro σ; rfl
  | cons c rest ih =>
    intro σ
    simp only [columnsLoopSt]
    split
    · split
      · rfl
      · simp [ih]
    · exact ih σ

theorem columnsLoopSt_agree (opts : ComparisonOptions) (t : String) :
    ∀ (l : List String) (σ : InformationSchema × InformationSchema),
    (columnsLoopSt opts t σ l).1 = columnsLoop opts σ.1 σ.2 t l := by
  intro l
  induction l with
  | nil => intro σ; rfl
  | cons c rest ih =>
    intro σ
    simp only [columnsLoopSt, columnsLoop]
    split
    · split
      · simp
      · simp [ih]
    · exact ih σ

theorem tablesLoopSt_frame (opts : ComparisonOptions) :
    ∀ (l : List String) (σ : InformationSchema × InformationSchema),
    (tablesLoopSt opts σ l).2 = σ := by
  intro l
  induction l with
  | nil => intro σ; rfl
  | cons t rest ih =>
    intro σ
    simp only [tablesLoopSt]
    split
    · split
      · simp [ih]
      · simp [ih, columnsLoopSt_frame]
    · simp [ih, columnsLoopSt_frame]

theorem tablesLoopSt_agree (opts : ComparisonOptions) :
    ∀ (l : List String) (σ : InformationSchema × InformationSchema),
    (tablesLoopSt opts σ l).1 = tablesLoop opts σ.1 σ.2 l := by
  intro l
  induction l with
  | nil => intro σ; rfl
  | cons t rest ih =>
    intro σ
    simp only [tablesLoopSt, tablesLoop]
    split
    · split
      · simp [ih]
      · simp [columnsLoopSt_frame, columnsLoopSt_agree, ih, List.append_assoc]
    · simp [columnsLoopSt_frame, columnsLoopSt_agree, ih]

theorem compareTablesSt_frame (opts : ComparisonOptions)
    (σ : InformationSchema × InformationSchema) :
    (compareTablesSt opts σ).2 = σ := by
  simp [compareTablesSt, tablesLoopSt_frame]

theorem compareTablesSt_agree (opts : ComparisonOptions)
    (σ : InformationSchema × InformationSchema) :
    (compareTablesSt opts σ).1 = compareTables opts σ.1 σ.2 := by
  simp [compareTablesSt, compareTables, tablesLoopSt_agree]

theorem indexColsLoopSt_frame (t k : String) :
    ∀ (l : List String) (σ : InformationSchema × InformationSchema),
    (indexColsLoopSt t k σ l).2 = σ := by
  intro l
  induction l with
  | nil => intro σ; rfl
  | cons c rest ih =>
    intro σ
    simp only [indexColsLoopSt]
    split
    · rfl
    · exact ih σ

theorem indexColsLoopSt_agree (t k : String) :
    ∀ (l : List String) (σ : InformationSchema × InformationSchema),
    (indexColsLoopSt t k σ l).1 = indexColsLoop σ.1 σ.2 t k l := by
  intro l
  induction l with
  | nil => intro σ; rfl
  | cons c rest ih =>
    intro σ
    simp only [indexColsLoopSt, indexColsLoop]
    split
    · rfl
    · exact ih σ

theorem indexKeysLoopSt_frame (t : String) :
    ∀ (l : List String) (σ : InformationSchema × InformationSchema),
    (indexKeysLoopSt t σ l).2 = σ := by
  intro l
  induction l with
  | nil => intro σ; rfl
  | cons k rest ih =>
    intro σ
    simp only [indexKeysLoopSt]
    split
    · rfl
    · simp [ih, indexColsLoopSt_frame]

theorem indexKeysLoopSt_agree (t : String) :
    ∀ (l : List String) (σ : InformationSchema × InformationSchema),
    (indexKeysLoopSt t σ l).1 = indexKeysLoop σ.1 σ.2 t l := by
  intro l
  induction l with
  | nil => intro σ; rfl
  | cons k rest ih =>
    intro σ
    simp only [indexKeysLoopSt, indexKeysLoop]
    split
    · rfl
    · simp [indexColsLoopSt_frame, indexColsLoopSt_agree, ih]

theorem indexTablesLoopSt_frame :
    ∀ (l : List String) (σ : InformationSchema × InformationSchema),
    (indexTablesLoopSt σ l).2 = σ := by
  intro l
  induction l with
  | nil => intro σ; rfl
  | cons t rest ih =>
    intro σ
    simp only [indexTablesLoopSt]
    split
    · exact ih σ
    · split
      · simp [ih]
      · simp [ih, indexKeysLoopSt_frame]

theorem indexTablesLoopSt_agree :
    ∀ (l : List String) (σ : InformationSchema × InformationSchema),
    (indexTablesLoopSt σ l).1 = indexTablesLoop σ.1 σ.2 l := by
  intro l
  induction l with
  | nil => intro σ; rfl
  | cons t rest ih =>
    intro σ
    simp only [indexTablesLoopSt, indexTablesLoop]
    split
    · exact ih σ
    · split
      · simp [ih]
      · simp [indexKeysLoopSt_frame, indexKeysLoopSt_agree, ih]

theorem compareIndexSt_frame (σ : InformationSchema × InformationSchema) :
    (compareIndexSt σ).2 = σ :=
  indexTablesLoopSt_frame _ σ

theorem compareIndexSt_agree (σ : InformationSchema × InformationSchema) :
    (compareIndexSt σ).1 = compareIndex σ.1 σ.2 :=
  indexTablesLoopSt_agree _ σ

theorem paramsLoopSt_frame (opts : ComparisonOptions) (ot : ObjectType)
    (p : String) (sel : InformationSchema → List (String × RoutineSchema)) :
    ∀ (l : List String) (σ : InformationSchema × InformationSchema),
    (paramsLoopSt opts ot p sel σ l).2 = σ := by
  intro l
  induction l with
  | nil => intro σ; rfl
  | cons q rest ih =>
    intro σ
    simp only [paramsLoopSt]
    split
    · split
      · rfl
      · simp [ih]
    · exact ih σ

theorem paramsLoopSt_agree (opts : ComparisonOptions) (ot : ObjectType)
    (p : String) (sel : InformationSchema → List (String × RoutineSchema)) :
    ∀ (l : List String) (σ : InformationSchema × InformationSchema),
    (paramsLoopSt opts ot p sel σ l).1
      = paramsLoop opts ot (sel σ.1) (sel σ.2) p l := by
  intro l
  induction l with
  | nil => intro σ; rfl
  | cons q rest ih =>
    intro σ
    simp only [paramsLoopSt, paramsLoop]
    split
    · split
      · simp
      · simp [ih]
    · exact ih σ

theorem routinesLoopSt_frame (opts : ComparisonOptions)
    (otBody otParam : ObjectType)
    (sel : InformationSchema → List (String × RoutineSchema)) :
    ∀ (l : List String) (σ : InformationSchema × InformationSchema),
    (routinesLoopSt opts otBody otParam sel σ l).2 = σ := by
  intro l
  induction l with
  | nil => intro σ; rfl
  | cons p rest ih =>
    intro σ
    simp only [routinesLoopSt]
    split
    · split
      · simp [ih]
      · simp [ih, paramsLoopSt_frame]
    · simp [ih, paramsLoopSt_frame]

theorem routinesLoopSt_agree (opts : ComparisonOptions)
    (otBody otParam : ObjectType)
    (sel : InformationSchema → List (String × RoutineSchema)) :
    ∀ (l : List String) (σ : InformationSchema × InformationSchema),
    (routinesLoopSt opts otBody otParam sel σ l).1
      = routinesLoop opts otBody otParam (sel σ.1) (sel σ.2) l := by
  intro l
  induction l with
  | nil => intro σ; rfl
  | cons p rest ih =>
    intro σ
    simp only [routinesLoopSt, routinesLoop]
    split
    · split
      · simp [ih]
      · simp [paramsLoopSt_frame, paramsLoopSt_agree, ih]
    · simp [paramsLoopSt_frame, paramsLoopSt_agree, ih]

theorem compareProceduresSt_frame (opts : ComparisonOptions)
    (σ : InformationSchema × InformationSchema) :
    (compareProceduresSt opts σ).2 = σ := by
  simp [compareProceduresSt, routinesLoopSt_frame]

theorem compareProceduresSt_agree (opts : ComparisonOptions)
    (σ : InformationSchema × InformationSchema) :
    (compareProceduresSt opts σ).1 = compareProcedures opts σ.1 σ.2 := by
  simp [compareProceduresSt, compareProcedures, routinesLoopSt_agree]

theorem compareFunctionsSt_frame (opts : ComparisonOptions)
    (σ : InformationSchema × InformationSchema) :
    (compareFunctionsSt opts σ).2 = σ := by
  simp [compareFunctionsSt, routinesLoopSt_frame]

theorem compareFunctionsSt_agree (opts : ComparisonOptions)
    (σ : InformationSchema × InformationSchema) :
    (compareFunctionsSt opts σ).1 = compareFunctions opts σ.1 σ.2 := by
  simp [compareFunctionsSt, compareFunctions, routinesLoopSt_agree]

/-- C8: neither `compareSchemaObjects` nor the engine's `compare` mutates its
inputs.  In the state-threaded rendition, which threads the two mapping
objects (resp. the two loaded documents) through every statement of the
source, the final state equals the initial state, and the produced
differences agree with the pure embedding. -/
theorem C8_no_input_mutation (ot : ObjectType) (mA mB : Option JRecord)
    (csoOpts : CsoOptions) (opts : ComparisonOptions)
    (A B : InformationSchema) :
    (compareSchemaObjectsSt ot mA mB csoOpts).2 = (mA.getD [], mB.getD []) ∧
    (compareSchemaObjectsSt ot mA mB csoOpts).1
      = compareSchemaObjects ot mA mB csoOpts ∧
    (compareSt opts A B).2 = (A, B) ∧
    (compareSt opts A B).1 = compare opts A B := by
  refine ⟨csoLoopSt_frame ot csoOpts _ _, csoLoopSt_agree ot csoOpts _ _, ?_, ?_⟩
  · simp [compareSt, compareFunctionsSt_frame, compareProceduresSt_frame,
      compareIndexSt_frame, compareTablesSt_frame]
  · simp only [compareSt, compare]
    rw [compareTablesSt_frame, compareIndexSt_frame, compareProceduresSt_frame]
    rw [compareTablesSt_agree, compareIndexSt_agree, compareProceduresSt_agree,
      compareFunctionsSt_agree]

theorem csoEntry_inOwner (ot : ObjectType) (A B : JRecord)
    (options : CsoOptions) (p : String) (c : Comparison)
    (h : csoEntry ot A B options p = some c) : c.inOwner = options.inOwner := by
  unfold csoEntry at h
  rcases hva : csoAdjust options (lookupJR A p) with _ | va <;>
    rcases hvb : csoAdjust options (lookupJR B p) with _ | vb <;>
      simp only [hva, hvb] at h
  · cases Option.some.inj h; rfl
  · cases Option.some.inj h; rfl
  · cases Option.some.inj h; rfl
  · split at h
    · cases Option.some.inj h; rfl
    · exact absurd h (by simp)

theorem csoEntry_name_truthy (ot : ObjectType) (A B : JRecord)
    (options : CsoOptions) (s : String) (hname : options.name = some s)
    (hs : s ≠ "") (p : String) (c : Comparison)
    (h : csoEntry ot A B options p = some c) : c.name = s := by
  have hnp : csoNameOrProp options p = s := by
    simp [csoNameOrProp, hname, hs]
  unfold csoEntry at h
  rcases hva : csoAdjust options (lookupJR A p) with _ | va <;>
    rcases hvb : csoAdjust options (lookupJR B p) with _ | vb <;>
      simp only [hva, hvb] at h
  · cases Option.some.inj h; exact hnp
  · cases Option.some.inj h; exact hnp
  · cases Option.some.inj h; exact hnp
  · split at h
    · cases Option.some.inj h; exact hnp
    · exact absurd h (by simp)

theorem cso_inOwner (ot : ObjectType) (X Y : Option JRecord)
    (options : CsoOptions) (c : Comparison)
    (hc : c ∈ (compareSchemaObjects ot X Y options).1) :
    c.inOwner = options.inOwner := by
  rcases cso_mem_diff ot X Y options c hc with ⟨p, _, hp⟩
  exact csoEntry_inOwner ot _ _ options p c hp

theorem cso_name_truthy (ot : ObjectType) (X Y : Option JRecord)
    (options : CsoOptions) (s : String) (hname : options.name = some s)
    (hs : s ≠ "") (c : Comparison)
    (hc : c ∈ (compareSchemaObjects ot X Y options).1) : c.name = s := by
  rcases cso_mem_diff ot X Y options c hc with ⟨p, _, hp⟩
  exact csoEntry_name_truthy ot _ _ options s hname hs p c hp

theorem csoLoop_all_none (ot : ObjectType) (A B : JRecord)
    (options : CsoOptions) : ∀ (l : List String),
    (∀ p ∈ l, csoEntry ot A B options p = none) →
    csoLoop ot A B options l = ([], l) := by
  intro l
  induction l with
  | nil => intro _; rfl
  | cons p rest ih =>
    intro h
    have hp := h p (List.mem_cons_self _ _)
    have hr := ih fun q hq => h q (List.mem_cons_of_mem _ hq)
    simp [csoLoop, hp, hr]

theorem csoLoop_diff_ne_nil (ot : ObjectType) (A B : JRecord)
    (options : CsoOptions) (p : String) (c : Comparison)
    (he : csoEntry ot A B options p = some c) : ∀ (l : List String),
    p ∈ l → (csoLoop ot A B options l).1 ≠ [] := by
  intro l
  induction l with
  | nil => intro h; cases h
  | cons q rest ih =>
    intro hp
    simp only [csoLoop]
    rcases heq : csoEntry ot A B options q with _ | c0
    · rcases List.mem_cons.mp hp with rfl | hp2
      · rw [he] at heq; cases heq
      · exact ih hp2
    · rcases csoNameTruthy options with _ | _ <;> simp

theorem keysOf_mapVal {α β : Type} (f : α → β) (l : List (String × α)) :
    keysOf (l.map (fun q => (q.1, f q.2))) = keysOf l := by
  simp [keysOf, List.map_map]

theorem csoEntry_objmap_none {α β : Type} (f : α → JRecord) (g : β → JRecord)
    (xs : List (String × α)) (ys : List (String × β))
    (ot : ObjectType) (options : CsoOptions)
    (p : String) (hp : p ∈ keysOf xs) (hpy : p ∈ keysOf ys) :
    csoEntry ot (xs.map (fun q => (q.1, JSVal.obj (f q.2))))
      (ys.map (fun q => (q.1, JSVal.obj (g q.2)))) options p = none := by
  rcases Option.isSome_iff_exists.mp ((lookupJR_isSome_iff xs p).mpr hp)
    with ⟨a, hxa⟩
  rcases Option.isSome_iff_exists.mp
    ((lookupJR_isSome_iff ys p).mpr hpy) with ⟨b, hyb⟩
  have hxm : lookupJR (xs.map (fun q => (q.1, JSVal.obj (f q.2)))) p
      = some (JSVal.obj (f a)) := by
    rw [lookupJR_map (fun z => JSVal.obj (f z)) xs p, hxa]; rfl
  have hym : lookupJR (ys.map (fun q => (q.1, JSVal.obj (g q.2)))) p
      = some (JSVal.obj (g b)) := by
    rw [lookupJR_map (fun z => JSVal.obj (g z)) ys p, hyb]; rfl
  simp only [csoEntry, hxm, hym]
  rfl

theorem cso_objmap_full {α β : Type} (f : α → JRecord) (g : β → JRecord)
    (xs : List (String × α)) (ys : List (String × β))
    (hiff : ∀ x, x ∈ keysOf xs ↔ x ∈ keysOf ys) (ot : ObjectType)
    (options : CsoOptions) :
    compareSchemaObjects ot (some (xs.map (fun q => (q.1, JSVal.obj (f q.2)))))
      (some (ys.map (fun q => (q.1, JSVal.obj (g q.2))))) options
      = ([], unionKeys (xs.map (fun q => (q.1, JSVal.obj (f q.2))))
          (ys.map (fun q => (q.1, JSVal.obj (g q.2))))) := by
  show csoLoop ot _ _ options _ = _
  simp only [Option.getD_some]
  apply csoLoop_all_none
  intro q hq
  have hq2 : q ∈ keysOf xs := by
    rcases (mem_unionKeys _ _ q).mp hq with h | h
    · rwa [keysOf_mapVal (fun z => JSVal.obj (f z)) xs] at h
    · rw [keysOf_mapVal (fun z => JSVal.obj (g z)) ys] at h
      exact (hiff q).mpr h
  exact csoEntry_objmap_none f g xs ys ot options q hq2 ((hiff q).mp hq2)

theorem keysOf_recordToJ (r : List (String × JRecord)) :
    keysOf (recordToJ r) = keysOf r :=
  keysOf_mapVal JSVal.obj r

theorem keysOf_indexMapToJ (m : IndexMap) :
    keysOf (indexMapToJ m) = keysOf m :=
  keysOf_mapVal (fun r => JSVal.obj (recordToJ r)) m

/-- Recognizer for an index difference attributed to index `k` of table `t`. -/
def isIndexDiffFor (k t : String) (c : Comparison) : Bool :=
  c.objectType == ObjectType.index && c.name == k && c.inOwner == some t

/-- One column of index `k` carries mismatched `sequence_no` numbers on the
two sides. -/
def seqMismatchAt (KA KB : List (String × JRecord)) (c : String) : Prop :=
  ∃ rowA rowB n1 n2, lookupJR KA c = some rowA ∧ lookupJR KB c = some rowB ∧
    lookupJR rowA "sequence_no" = some (.num n1) ∧
    lookupJR rowB "sequence_no" = some (.num n2) ∧ n1 ≠ n2

theorem isIndexDiffFor_false_of_inOwner (k t t' : String) (hne : t' ≠ t)
    (c : Comparison) (hio : c.inOwner = some t') :
    isIndexDiffFor k t c = false := by
  unfold isIndexDiffFor
  rw [hio]
  have h : ((some t' : Option String) == some t) = false :=
    beq_eq_false_iff_ne.mpr (by simpa using hne)
  simp [h]

theorem isIndexDiffFor_false_of_type (k t : String) (c : Comparison)
    (hot : c.objectType ≠ .index) : isIndexDiffFor k t c = false := by
  unfold isIndexDiffFor
  have h : (c.objectType == ObjectType.index) = false :=
    beq_eq_false_iff_ne.mpr hot
  simp [h]

theorem idxKeyJOf_getD (A : InformationSchema) (t j : String) :
    idxKeyJOf A t j
      = (lookupJR ((lookupJR A.indexes t).getD []) j).map recordToJ := by
  unfold idxKeyJOf
  cases lookupJR A.indexes t <;> rfl

theorem idxColJOf_getD (A : InformationSchema) (t j c : String) :
    idxColJOf A t j c
      = ((lookupJR ((lookupJR A.indexes t).getD []) j).bind
          (fun cols => lookupJR cols c)) := by
  unfold idxColJOf
  cases lookupJR A.indexes t <;> rfl

theorem idxJOf_getD (A : InformationSchema) (t : String) :
    (idxJOf A t).getD [] = indexMapToJ ((lookupJR A.indexes t).getD []) := by
  unfold idxJOf
  cases lookupJR A.indexes t <;> rfl

theorem cso_getD_some (ot : ObjectType) (X Y : Option JRecord)
    (options : CsoOptions) :
    compareSchemaObjects ot X Y options
      = compareSchemaObjects ot (some (X.getD [])) (some (Y.getD [])) options := by
  cases X <;> cases Y <;> rfl

theorem indexColsLoop_inOwner (A B : InformationSchema) (t k : String) :
    ∀ (l : List String) (c : Comparison),
    c ∈ indexColsLoop A B t k l → c.inOwner = some t := by
  intro l
  induction l with
  | nil => intro c hc; simp [indexColsLoop] at hc
  | cons x rest ih =>
    intro c hc
    simp only [indexColsLoop] at hc
    split at hc
    · exact cso_inOwner _ _ _ _ c hc
    · exact ih c hc

theorem indexKeysLoop_inOwner (A B : InformationSchema) (t : String) :
    ∀ (l : List String) (c : Comparison),
    c ∈ indexKeysLoop A B t l → c.inOwner = some t := by
  intro l
  induction l with
  | nil => intro c hc; simp [indexKeysLoop] at hc
  | cons k rest ih =>
    intro c hc
    simp only [indexKeysLoop] at hc
    split at hc
    · exact cso_inOwner _ _ _ _ c hc
    · rcases List.mem_append.mp hc with h | h
      · exact indexColsLoop_inOwner A B t k _ c h
      · exact ih c h

theorem indexColsLoop_nil_of_eq (A B : InformationSchema) (t j : String)
    (h : ∀ c, idxColJOf A t j c = idxColJOf B t j c) :
    ∀ (l : List String), indexColsLoop A B t j l = [] := by
  intro l
  induction l with
  | nil => rfl
  | cons c rest ih =>
    simp only [indexColsLoop]
    rw [h c]
    simp [compareSchemaObjects_self, ih]

theorem indexKeysLoop_nil_of_eq (A B : InformationSchema) (t : String) :
    ∀ (l : List String),
    (∀ j ∈ l,
      lookupJR ((lookupJR A.indexes t).getD []) j
        = lookupJR ((lookupJR B.indexes t).getD []) j) →
    indexKeysLoop A B t l = [] := by
  intro l
  induction l with
  | nil => intro _; rfl
  | cons j rest ih =>
    intro heq
    have hj := heq j (List.mem_cons_self _ _)
    have hkey : idxKeyJOf A t j = idxKeyJOf B t j := by
      rw [idxKeyJOf_getD, idxKeyJOf_getD, hj]
    have hcols : ∀ c, idxColJOf A t j c = idxColJOf B t j c := by
      intro c
      rw [idxColJOf_getD, idxColJOf_getD, hj]
    simp only [indexKeysLoop]
    rw [hkey]
    simp [compareSchemaObjects_self, indexColsLoop_nil_of_eq A B t j hcols,
      ih fun q hq => heq q (List.mem_cons_of_mem _ hq)]

theorem indexColsLoop_singleton (A B : InformationSchema) (t k : String)
    (hk : k ≠ "") : ∀ (l : List String),
    (∃ c ∈ l, (compareSchemaObjects .index (idxColJOf A t k c)
      (idxColJOf B t k c)
      { name := some k, inOwner := some t, remarks := some .mismatch }).1 ≠ []) →
    ∃ c0, indexColsLoop A B t k l = [c0] ∧ c0.objectType = .index ∧
      c0.name = k ∧ c0.inOwner = some t := by
  intro l
  induction l with
  | nil => rintro ⟨c, hc, _⟩; cases hc
  | cons c rest ih =>
    rintro ⟨c1, hc1, hne⟩
    by_cases hmm : (compareSchemaObjects .index (idxColJOf A t k c)
        (idxColJOf B t k c)
        { name := some k, inOwner := some t, remarks := some .mismatch }).1 = []
    · have hc1r : c1 ∈ rest := by
        rcases List.mem_cons.mp hc1 with rfl | h
        · exact absurd hmm hne
        · exact h
      simp only [indexColsLoop]
      rw [if_neg (by simpa using hmm)]
      exact ih ⟨c1, hc1r, hne⟩
    · simp only [indexColsLoop]
      rw [if_pos (by simpa using hmm)]
      have hlen : ((compareSchemaObjects .index (idxColJOf A t k c)
          (idxColJOf B t k c)
          { name := some k, inOwner := some t,
            remarks := some .mismatch }).1).length ≤ 1 :=
        csoLoop_length_le_one .index _ _ _ (by simp [csoNameTruthy, hk]) _
      rcases hl : (compareSchemaObjects .index (idxColJOf A t k c)
          (idxColJOf B t k c)
          { name := some k, inOwner := some t, remarks := some .mismatch }).1
        with _ | ⟨c0, tail⟩
      · exact absurd hl hmm
      · have htail : tail = [] := by
          have h1 : (c0 :: tail).length ≤ 1 := by
            rw [← hl]
            exact hlen
          have h2 : tail.length + 1 ≤ 1 := by simpa using h1
          exact List.length_eq_zero.mp (by omega)
        subst htail
        refine ⟨c0, rfl, ?_, ?_, ?_⟩
        · exact cso_objectType _ _ _ _ c0 (hl ▸ List.mem_singleton_self c0)
        · exact cso_name_truthy _ _ _ _ k rfl hk c0
            (hl ▸ List.mem_singleton_self c0)
        · exact cso_inOwner _ _ _ _ c0 (hl ▸ List.mem_singleton_self c0)

theorem isIndexDiffFor_false_of_name (k t : String) (c : Comparison)
    (j : String) (hn : c.name = j) (hjk : j ≠ k) :
    isIndexDiffFor k t c = false := by
  unfold isIndexDiffFor
  rw [hn]
  have h : (j == k) = false := beq_eq_false_iff_ne.mpr hjk
  simp [h]

theorem indexColsLoop_name (A B : InformationSchema) (t j : String)
    (hj : j ≠ "") : ∀ (l : List String) (c : Comparison),
    c ∈ indexColsLoop A B t j l → c.name = j := by
  intro l
  induction l with
  | nil => intro c hc; simp [indexColsLoop] at hc
  | cons x rest ih =>
    intro c hc
    simp only [indexColsLoop] at hc
    split at hc
    · exact cso_name_truthy _ _ _ _ j rfl hj c hc
    · exact ih c hc

theorem idxKey_cso_full (A B : InformationSchema) (t j : String)
    (KJa KJb : List (String × JRecord))
    (hKJa : lookupJR ((lookupJR A.indexes t).getD []) j = some KJa)
    (hKJb : lookupJR ((lookupJR B.indexes t).getD []) j = some KJb)
    (hiff : ∀ p, p ∈ keysOf KJa ↔ p ∈ keysOf KJb) :
    compareSchemaObjects .index (idxKeyJOf A t j) (idxKeyJOf B t j)
      { name := some j, inOwner := some t, remarks := some .mismatch }
      = ([], unionKeys (recordToJ KJa) (recordToJ KJb)) := by
  have hKeyA : idxKeyJOf A t j = some (recordToJ KJa) := by
    rw [idxKeyJOf_getD, hKJa]; rfl
  have hKeyB : idxKeyJOf B t j = some (recordToJ KJb) := by
    rw [idxKeyJOf_getD, hKJb]; rfl
  rw [hKeyA, hKeyB]
  exact cso_objmap_full (fun x => x) (fun x => x) KJa KJb hiff .index _

theorem indexKeysLoop_filter_nil_sibs (A B : InformationSchema) (t k : String)
    (hallCols : ∀ (j : String) (KJa KJb : List (String × JRecord)),
      lookupJR ((lookupJR A.indexes t).getD []) j = some KJa →
      lookupJR ((lookupJR B.indexes t).getD []) j = some KJb →
      ∀ p, p ∈ keysOf KJa ↔ p ∈ keysOf KJb) :
    ∀ (l : List String),
    (∀ j ∈ l, j ≠ "" ∧ j ≠ k ∧
      (lookupJR ((lookupJR A.indexes t).getD []) j).isSome = true ∧
      (lookupJR ((lookupJR B.indexes t).getD []) j).isSome = true) →
    (indexKeysLoop A B t l).filter (isIndexDiffFor k t) = [] := by
  intro l
  induction l with
  | nil => intro _; rfl
  | cons j rest ih =>
    intro h
    obtain ⟨hje, hjk, hjA, hjB⟩ := h j (List.mem_cons_self _ _)
    rcases Option.isSome_iff_exists.mp hjA with ⟨KJa, hKJa⟩
    rcases Option.isSome_iff_exists.mp hjB with ⟨KJb, hKJb⟩
    have hmc := idxKey_cso_full A B t j KJa KJb hKJa hKJb
      (hallCols j KJa KJb hKJa hKJb)
    simp only [indexKeysLoop]
    rw [hmc]
    rw [if_neg (by simp)]
    rw [List.filter_append]
    have hcols0 : (indexColsLoop A B t j
        (unionKeys (recordToJ KJa) (recordToJ KJb))).filter
        (isIndexDiffFor k t) = [] := by
      apply List.filter_eq_nil_iff.mpr
      intro c hc
      simp [isIndexDiffFor_false_of_name k t c j
        (indexColsLoop_name A B t j hje _ c hc) hjk]
    rw [hcols0, ih (fun q hq => h q (List.mem_cons_of_mem _ hq))]
    rfl

theorem indexKeysLoop_filter_one (A B : InformationSchema) (t k : String)
    (hk : k ≠ "") (KA KB : List (String × JRecord))
    (hkA : lookupJR ((lookupJR A.indexes t).getD []) k = some KA)
    (hkB : lookupJR ((lookupJR B.indexes t).getD []) k = some KB)
    (hallCols : ∀ (j : String) (KJa KJb : List (String × JRecord)),
      lookupJR ((lookupJR A.indexes t).getD []) j = some KJa →
      lookupJR ((lookupJR B.indexes t).getD []) j = some KJb →
      ∀ p, p ∈ keysOf KJa ↔ p ∈ keysOf KJb)
    (hex : ∃ c ∈ keysOf KA, (compareSchemaObjects .index (idxColJOf A t k c)
      (idxColJOf B t k c)
      { name := some k, inOwner := some t, remarks := some .mismatch }).1
      ≠ []) :
    ∀ (l : List String), l.Nodup → k ∈ l →
    (∀ j ∈ l, j ≠ "" ∧
      (lookupJR ((lookupJR A.indexes t).getD []) j).isSome = true ∧
      (lookupJR ((lookupJR B.indexes t).getD []) j).isSome = true) →
    ∃ c0, (indexKeysLoop A B t l).filter (isIndexDiffFor k t) = [c0] ∧
      c0.objectType = .index ∧ c0.name = k ∧ c0.inOwner = some t := by
  intro l
  induction l with
  | nil => intro _ hkl; cases hkl
  | cons j rest ih =>
    intro hnd hkl hall
    rcases List.nodup_cons.mp hnd with ⟨hj, hnd2⟩
    obtain ⟨hje, hjA, hjB⟩ := hall j (List.mem_cons_self _ _)
    rcases Option.isSome_iff_exists.mp hjA with ⟨KJa, hKJa⟩
    rcases Option.isSome_iff_exists.mp hjB with ⟨KJb, hKJb⟩
    have hmc := idxKey_cso_full A B t j KJa KJb hKJa hKJb
      (hallCols j KJa KJb hKJa hKJb)
    by_cases hjk : j = k
    · rw [hjk] at hje hKJa hKJb hmc
      have hKAeq : KJa = KA := Option.some.inj (hKJa.symm.trans hkA)
      have hKBeq : KJb = KB := Option.some.inj (hKJb.symm.trans hkB)
      rw [hKAeq, hKBeq] at hmc
      rcases hex with ⟨c1, hc1, hcneq⟩
      have hc1u : c1 ∈ unionKeys (recordToJ KA) (recordToJ KB) := by
        apply (mem_unionKeys _ _ c1).mpr
        apply Or.inl
        rw [keysOf_recordToJ]
        exact hc1
      rcases indexColsLoop_singleton A B t k hk
          (unionKeys (recordToJ KA) (recordToJ KB)) ⟨c1, hc1u, hcneq⟩
        with ⟨c0, hc0, p1, p2, p3⟩
      refine ⟨c0, ?_, p1, p2, p3⟩
      rw [hjk]
      simp only [indexKeysLoop]
      rw [hmc]
      rw [if_neg (by simp)]
      rw [List.filter_append, hc0]
      have hrest : (indexKeysLoop A B t rest).filter (isIndexDiffFor k t)
          = [] := by
        apply indexKeysLoop_filter_nil_sibs A B t k hallCols rest
        intro q hq
        obtain ⟨hq1, hq2, hq3⟩ := hall q (List.mem_cons_of_mem _ hq)
        refine ⟨hq1, ?_, hq2, hq3⟩
        intro hqk
        exact hj (by rw [hjk, ← hqk]; exact hq)
      rw [hrest]
      have hP : isIndexDiffFor k t c0 = true := by
        simp [isIndexDiffFor, p1, p2, p3]
      simp [hP]
    · have hkl2 : k ∈ rest := by
        rcases List.mem_cons.mp hkl with h | h
        · exact absurd h.symm hjk
        · exact h
      simp only [indexKeysLoop]
      rw [hmc]
      rw [if_neg (by simp)]
      rw [List.filter_append]
      have hcols0 : (indexColsLoop A B t j
          (unionKeys (recordToJ KJa) (recordToJ KJb))).filter
          (isIndexDiffFor k t) = [] := by
        apply List.filter_eq_nil_iff.mpr
        intro c hc
        simp [isIndexDiffFor_false_of_name k t c j
          (indexColsLoop_name A B t j hje _ c hc) hjk]
      rw [hcols0]
      simp only [List.nil_append]
      exact ih hnd2 hkl2 (fun q hq => hall q (List.mem_cons_of_mem _ hq))

theorem indexTablesLoop_inOwner_mem (A B : InformationSchema) :
    ∀ (l : List String) (c : Comparison),
    c ∈ indexTablesLoop A B l → ∃ x ∈ l, c.inOwner = some x := by
  intro l
  induction l with
  | nil => intro c hc; simp [indexTablesLoop] at hc
  | cons t rest ih =>
    intro c hc
    simp only [indexTablesLoop] at hc
    split at hc
    · rcases ih c hc with ⟨x, hx, hio⟩
      exact ⟨x, List.mem_cons_of_mem _ hx, hio⟩
    · split at hc
      · rcases List.mem_append.mp hc with h | h
        · exact ⟨t, List.mem_cons_self _ _, cso_inOwner _ _ _ _ c h⟩
        · rcases ih c h with ⟨x, hx, hio⟩
          exact ⟨x, List.mem_cons_of_mem _ hx, hio⟩
      · rcases List.mem_append.mp hc with h | h
        · exact ⟨t, List.mem_cons_self _ _, indexKeysLoop_inOwner A B t _ c h⟩
        · rcases ih c h with ⟨x, hx, hio⟩
          exact ⟨x, List.mem_cons_of_mem _ hx, hio⟩

theorem indexTablesLoop_filter_nil (A B : InformationSchema) (k t : String) :
    ∀ (l : List String), t ∉ l →
    (indexTablesLoop A B l).filter (isIndexDiffFor k t) = [] := by
  intro l hnt
  apply List.filter_eq_nil_iff.mpr
  intro c hc
  rcases indexTablesLoop_inOwner_mem A B l c hc with ⟨x, hx, hio⟩
  have hxt : x ≠ t := fun h => hnt (h ▸ hx)
  simp [isIndexDiffFor_false_of_inOwner k t x hxt c hio]

theorem indexTablesLoop_filter_singleton (A B : InformationSchema)
    (k t : String) (c0 : Comparison)
    (htA : (lookupJR A.tables t).isSome = true)
    (htB : (lookupJR B.tables t).isSome = true)
    (hmi : (compareSchemaObjects .index (idxJOf A t) (idxJOf B t)
      { inOwner := some t }).1 = [])
    (hkf : (indexKeysLoop A B t (compareSchemaObjects .index (idxJOf A t)
      (idxJOf B t) { inOwner := some t }).2).filter
        (isIndexDiffFor k t) = [c0]) :
    ∀ (l : List String), l.Nodup → t ∈ l →
    (indexTablesLoop A B l).filter (isIndexDiffFor k t) = [c0] := by
  intro l
  induction l with
  | nil => intro _ htl; cases htl
  | cons x rest ih =>
    intro hnd htl
    rcases List.nodup_cons.mp hnd with ⟨hx, hnd2⟩
    by_cases hxt : x = t
    · subst hxt
      rcases Option.isSome_iff_exists.mp htA with ⟨vA, hvA⟩
      rcases Option.isSome_iff_exists.mp htB with ⟨vB, hvB⟩
      simp only [indexTablesLoop]
      rw [if_neg (by simp [hvA, hvB])]
      rw [if_neg (by simp [hmi])]
      rw [List.filter_append, hkf]
      rw [indexTablesLoop_filter_nil A B k x rest hx]
      rfl
    · have htl2 : t ∈ rest := by
        rcases List.mem_cons.mp htl with h | h
        · exact absurd h.symm hxt
        · exact h
      simp only [indexTablesLoop]
      split
      · exact ih hnd2 htl2
      · split
        · rw [List.filter_append]
          rw [ih hnd2 htl2]
          have hfm : (compareSchemaObjects .index (idxJOf A x) (idxJOf B x)
              { inOwner := some x }).1.filter (isIndexDiffFor k t) = [] := by
            apply List.filter_eq_nil_iff.mpr
            intro c hc
            simp [isIndexDiffFor_false_of_inOwner k t x hxt c
              (cso_inOwner _ _ _ _ c hc)]
          rw [hfm]
          rfl
        · rw [List.filter_append]
          rw [ih hnd2 htl2]
          have hfm : (indexKeysLoop A B x (compareSchemaObjects .index
              (idxJOf A x) (idxJOf B x) { inOwner := some x }).2).filter
              (isIndexDiffFor k t) = [] := by
            apply List.filter_eq_nil_iff.mpr
            intro c hc
            simp [isIndexDiffFor_false_of_inOwner k t x hxt c
              (indexKeysLoop_inOwner A B x _ c hc)]
          rw [hfm]
          rfl

theorem compareTables_objectType (opts : ComparisonOptions)
    (A B : InformationSchema) (c : Comparison)
    (hc : c ∈ compareTables opts A B) :
    c.objectType = .table ∨ c.objectType = .tableColumn := by
  simp only [compareTables] at hc
  rcases List.mem_append.mp hc with h | h
  · exact Or.inl (cso_objectType _ _ _ _ c h)
  · exact Or.inr (tablesLoop_objectType opts A B _ c h)

/-- C6 (amended): for every pair of documents in which a table t is present
on both sides, its two per-table index mappings carry the same set of index
names, all of those index names are non-empty (JS-truthy), and every index
present on both sides has the same set of column names there, if the index k
has two columns carrying mismatched `sequence_no` numbers then `compare`
emits exactly one `index` difference for k under t, regardless of the
comparison options (in particular of `eager`).  The added provisos are
forced: a sibling index missing on one side, or a missing column in a
sibling index iterated earlier, short-circuits that table's index checks
before k is reached, and an index recorded under the empty name has its
diffs attributed to the differing property instead of the index. -/
theorem C6_two_seq_mismatches_one_diff (opts : ComparisonOptions)
    (A B : InformationSchema) (t k : String)
    (KA KB : List (String × JRecord))
    (htA : (lookupJR A.tables t).isSome = true)
    (htB : (lookupJR B.tables t).isSome = true)
    (hidxKeys : ∀ j, j ∈ keysOf ((lookupJR A.indexes t).getD [])
      ↔ j ∈ keysOf ((lookupJR B.indexes t).getD []))
    (hnames : ∀ j ∈ keysOf ((lookupJR A.indexes t).getD []), j ≠ "")
    (hallCols : ∀ (j : String) (KJa KJb : List (String × JRecord)),
      lookupJR ((lookupJR A.indexes t).getD []) j = some KJa →
      lookupJR ((lookupJR B.indexes t).getD []) j = some KJb →
      ∀ p, p ∈ keysOf KJa ↔ p ∈ keysOf KJb)
    (hkA : lookupJR ((lookupJR A.indexes t).getD []) k = some KA)
    (hkB : lookupJR ((lookupJR B.indexes t).getD []) k = some KB)
    (hmis : ∃ c1 c2, c1 ≠ c2 ∧ seqMismatchAt KA KB c1 ∧ seqMismatchAt KA KB c2) :
    ((compare opts A B).filter (isIndexDiffFor k t)).length = 1 := by
  have hkmemA : k ∈ keysOf ((lookupJR A.indexes t).getD []) :=
    (lookupJR_isSome_iff _ k).mp (by simp [hkA])
  have hk : k ≠ "" := hnames k hkmemA
  have hex : ∃ c ∈ keysOf KA, (compareSchemaObjects .index (idxColJOf A t k c)
      (idxColJOf B t k c)
      { name := some k, inOwner := some t, remarks := some .mismatch }).1
      ≠ [] := by
    rcases hmis with ⟨c1, _, _, hm1, _⟩
    rcases hm1 with ⟨rowA, rowB, n1, n2, hrA, hrB, hsA, hsB, hnn⟩
    have hc1m : c1 ∈ keysOf KA :=
      (lookupJR_isSome_iff KA c1).mp (by simp [hrA])
    have hColA : idxColJOf A t k c1 = some rowA := by
      rw [idxColJOf_getD, hkA]
      simpa using hrA
    have hColB : idxColJOf B t k c1 = some rowB := by
      rw [idxColJOf_getD, hkB]
      simpa using hrB
    refine ⟨c1, hc1m, ?_⟩
    rw [hColA, hColB]
    have hentry : csoEntry .index rowA rowB
        { name := some k, inOwner := some t, remarks := some .mismatch }
        "sequence_no" = some ⟨.index, csoNameOrProp
          { name := some k, inOwner := some t, remarks := some .mismatch }
          "sequence_no", some t, some .mismatch, some .mismatch⟩ := by
      have hadjA : csoAdjust ⟨some t, some k, some .mismatch, none⟩
          (some (JSVal.num n1)) = some (JSVal.num n1) := rfl
      have hadjB : csoAdjust ⟨some t, some k, some .mismatch, none⟩
          (some (JSVal.num n2)) = some (JSVal.num n2) := rfl
      have hcond : csoMismatchCond (JSVal.num n1) (JSVal.num n2) = true := by
        simp [csoMismatchCond, bne_iff_ne, hnn]
      simp only [csoEntry, hsA, hsB, hadjA, hadjB, hcond]
      rfl
    have hmem : "sequence_no" ∈ unionKeys rowA rowB :=
      (mem_unionKeys rowA rowB "sequence_no").mpr
        (Or.inl ((lookupJR_isSome_iff rowA "sequence_no").mp (by simp [hsA])))
    show (compareSchemaObjects .index (some rowA) (some rowB) _).1 ≠ []
    simp only [compareSchemaObjects, Option.getD_some]
    exact csoLoop_diff_ne_nil .index rowA rowB _ "sequence_no" _ hentry _ hmem
  have hmiFull : compareSchemaObjects .index (idxJOf A t) (idxJOf B t)
      { inOwner := some t }
      = ([], unionKeys (indexMapToJ ((lookupJR A.indexes t).getD []))
          (indexMapToJ ((lookupJR B.indexes t).getD []))) := by
    rw [cso_getD_some, idxJOf_getD, idxJOf_getD]
    exact cso_objmap_full recordToJ recordToJ _ _ hidxKeys .index _
  have humem : ∀ j ∈ unionKeys (indexMapToJ ((lookupJR A.indexes t).getD []))
      (indexMapToJ ((lookupJR B.indexes t).getD [])),
      j ∈ keysOf ((lookupJR A.indexes t).getD []) := by
    intro j hj
    rcases (mem_unionKeys _ _ j).mp hj with h | h
    · rwa [keysOf_indexMapToJ] at h
    · rw [keysOf_indexMapToJ] at h
      exact (hidxKeys j).mpr h
  rcases indexKeysLoop_filter_one A B t k hk KA KB hkA hkB hallCols hex
      (unionKeys (indexMapToJ ((lookupJR A.indexes t).getD []))
        (indexMapToJ ((lookupJR B.indexes t).getD [])))
      (nodup_unionKeys _ _)
      ((mem_unionKeys _ _ k).mpr
        (Or.inl (by rw [keysOf_indexMapToJ]; exact hkmemA)))
      (fun j hj => by
        have hjA := humem j hj
        have hjB := (hidxKeys j).mp hjA
        exact ⟨hnames j hjA, (lookupJR_isSome_iff _ j).mpr hjA,
          (lookupJR_isSome_iff _ j).mpr hjB⟩)
    with ⟨c0, hc0, p1, p2, p3⟩
  have hIdx : (compareIndex A B).filter (isIndexDiffFor k t) = [c0] := by
    unfold compareIndex
    apply indexTablesLoop_filter_singleton A B k t c0 htA htB
      (by rw [hmiFull]) (by rw [hmiFull]; exact hc0)
    · exact nodup_unionKeys _ _
    · exact (mem_unionKeys _ _ t).mpr
        (Or.inl ((lookupJR_isSome_iff _ t).mp htA))
  have hT : (compareTables opts A B).filter (isIndexDiffFor k t) = [] := by
    apply List.filter_eq_nil_iff.mpr
    intro c hc
    rcases compareTables_objectType opts A B c hc with h | h <;>
      simp [isIndexDiffFor_false_of_type k t c (by rw [h]; intro hcon; cases hcon)]
  have hPr : (compareProcedures opts A B).filter (isIndexDiffFor k t) = [] := by
    apply List.filter_eq_nil_iff.mpr
    intro c hc
    rcases compareProcedures_objectType opts A B c hc with h | h <;>
      simp [isIndexDiffFor_false_of_type k t c (by rw [h]; intro hcon; cases hcon)]
  have hF : (compareFunctions opts A B).filter (isIndexDiffFor k t) = [] := by
    apply List.filter_eq_nil_iff.mpr
    intro c hc
    rcases compareFunctions_objectType opts A B c hc with h | h <;>
      simp [isIndexDiffFor_false_of_type k t c (by rw [h]; intro hcon; cases hcon)]
  unfold compare
  rw [List.filter_append, List.filter_append, List.filter_append,
    hT, hPr, hF, hIdx]
  rfl

/-- Document A of the C6 counterexample: table `t` carries a sibling index
`j` (absent from B) ahead of the index `k` whose two columns have swapped
sequence numbers. -/
def idxDocA : InformationSchema :=
  ⟨[("t", ⟨"InnoDB", []⟩)],
   [("t", [("j", [("c", [("sequence_no", JSVal.num 1)])]),
     ("k", [("c1", [("sequence_no", JSVal.num 1)]),
       ("c2", [("sequence_no", JSVal.num 2)])])])],
   [], []⟩

/-- Document B of the C6 counterexample: same table, index `k` only, with the
two sequence numbers swapped relative to A. -/
def idxDocB : InformationSchema :=
  ⟨[("t", ⟨"InnoDB", []⟩)],
   [("t", [("k", [("c1", [("sequence_no", JSVal.num 2)]),
     ("c2", [("sequence_no", JSVal.num 1)])])])],
   [], []⟩

/-- C6 counterexample: in this pair of documents the table `t` is present on
both sides and index `k` is present on both sides with two columns whose
sequence numbers mismatch, yet `compare` emits zero `index` differences for
`k` (not one) under either value of `eager`: the sibling index `j`, missing
on side B, is reported first and its `break` skips the remaining index
checks of the table. -/
theorem C6_counterexample :
    (lookupJR idxDocA.tables "t").isSome = true ∧
    (lookupJR idxDocB.tables "t").isSome = true ∧
    lookupJR ((lookupJR idxDocA.indexes "t").getD []) "k"
      = some [("c1", [("sequence_no", JSVal.num 1)]),
        ("c2", [("sequence_no", JSVal.num 2)])] ∧
    lookupJR ((lookupJR idxDocB.indexes "t").getD []) "k"
      = some [("c1", [("sequence_no", JSVal.num 2)]),
        ("c2", [("sequence_no", JSVal.num 1)])] ∧
    seqMismatchAt [("c1", [("sequence_no", JSVal.num 1)]),
        ("c2", [("sequence_no", JSVal.num 2)])]
      [("c1", [("sequence_no", JSVal.num 2)]),
        ("c2", [("sequence_no", JSVal.num 1)])] "c1" ∧
    seqMismatchAt [("c1", [("sequence_no", JSVal.num 1)]),
        ("c2", [("sequence_no", JSVal.num 2)])]
      [("c1", [("sequence_no", JSVal.num 2)]),
        ("c2", [("sequence_no", JSVal.num 1)])] "c2" ∧
    ((compare ⟨false, false, false⟩ idxDocA idxDocB).filter
      (isIndexDiffFor "k" "t")).length = 0 ∧
    ((compare ⟨true, false, false⟩ idxDocA idxDocB).filter
      (isIndexDiffFor "k" "t")).length = 0 :=
  ⟨rfl, rfl, rfl, rfl,
    ⟨[("sequence_no", JSVal.num 1)], [("sequence_no", JSVal.num 2)], 1, 2,
      rfl, rfl, rfl, rfl, by decide⟩,
    ⟨[("sequence_no", JSVal.num 2)], [("sequence_no", JSVal.num 1)], 2, 1,
      rfl, rfl, rfl, rfl, by decide⟩,
    rfl, rfl⟩

/-- Columns of the witness index on side A: two columns with sequence
numbers 1 and 2. -/
def idxWCols1 : List (String × JRecord) :=
  [("c1", [("sequence_no", JSVal.num 1)]), ("c2", [("sequence_no", JSVal.num 2)])]

/-- Columns of the witness index on side B: the same two columns with the
sequence numbers swapped. -/
def idxWCols2 : List (String × JRecord) :=
  [("c1", [("sequence_no", JSVal.num 2)]), ("c2", [("sequence_no", JSVal.num 1)])]

/-- Witness document A: one table `t` with the single index `k`. -/
def idxWDocA : InformationSchema :=
  ⟨[("t", ⟨"InnoDB", []⟩)], [("t", [("k", idxWCols1)])], [], []⟩

/-- Witness document B: the same shape with the swapped sequence numbers. -/
def idxWDocB : InformationSchema :=
  ⟨[("t", ⟨"InnoDB", []⟩)], [("t", [("k", idxWCols2)])], [], []⟩

/-- C6 witness: the amended theorem applied to a concrete isolated scenario
(single index `k`, two swapped sequence numbers). -/
theorem C6_two_seq_mismatches_one_diff_witness :
    ((compare ⟨false, false, false⟩ idxWDocA idxWDocB).filter
      (isIndexDiffFor "k" "t")).length = 1 :=
  C6_two_seq_mismatches_one_diff ⟨false, false, false⟩ idxWDocA idxWDocB
    "t" "k" idxWCols1 idxWCols2
    rfl rfl
    (fun j => Iff.rfl)
    (by decide)
    (by
      intro j KJa KJb h1 h2 p
      have e1 : lookupJR ((lookupJR idxWDocA.indexes "t").getD []) j
          = if "k" = j then some idxWCols1 else none := rfl
      have e2 : lookupJR ((lookupJR idxWDocB.indexes "t").getD []) j
          = if "k" = j then some idxWCols2 else none := rfl
      rw [e1] at h1
      rw [e2] at h2
      by_cases hj : "k" = j
      · rw [if_pos hj] at h1 h2
        cases Option.some.inj h1
        cases Option.some.inj h2
        exact Iff.rfl
      · rw [if_neg hj] at h1
        exact absurd h1 (by simp))
    rfl rfl
    ⟨"c1", "c2", by decide,
      ⟨[("sequence_no", JSVal.num 1)], [("sequence_no", JSVal.num 2)], 1, 2,
        rfl, rfl, rfl, rfl, by decide⟩,
      ⟨[("sequence_no", JSVal.num 2)], [("sequence_no", JSVal.num 1)], 2, 1,
        rfl, rfl, rfl, rfl, by decide⟩⟩

/-- Restriction of the whitespace alphabet to space, tab and newline. -/
def isStn (c : Char) : Bool :=
  c = ' ' || c = '\t' || c = '\n'

/-- The head of the list, when present, is not a whitespace character (a
whitespace run in the decomposition below is maximal). -/
def headNotWs : List Char → Prop
  | [] => True
  | c :: _ => isWs c = false

instance (l : List Char) : Decidable (headNotWs l) :=
  match l with
  | [] => isTrue trivial
  | c :: _ => inferInstanceAs (Decidable (isWs c = false))

/-- Two character lists differ only by runs of whitespace drawn from the
alphabet `P`: they decompose into the same non-whitespace characters with
corresponding non-empty maximal whitespace runs in between, whose contents
may differ. -/
inductive WsRunEquivP (P : Char → Bool) : List Char → List Char → Prop where
  | nil : WsRunEquivP P [] []
  | word : ∀ (c : Char) (s t : List Char), isWs c = false →
      WsRunEquivP P s t → WsRunEquivP P (c :: s) (c :: t)
  | run : ∀ (r1 r2 s t : List Char), r1 ≠ [] → r2 ≠ [] →
      (∀ c ∈ r1, P c = true) → (∀ c ∈ r2, P c = true) →
      headNotWs s → headNotWs t →
      WsRunEquivP P s t → WsRunEquivP P (r1 ++ s) (r2 ++ t)

theorem isWs_of_isStn (c : Char) (h : isStn c = true) : isWs c = true := by
  rcases Bool.or_eq_true_iff.mp h with h2 | h2
  · rcases Bool.or_eq_true_iff.mp h2 with h3 | h3 <;>
      simp [isWs, decide_eq_true_eq.mp h3]
  · simp [isWs, decide_eq_true_eq.mp h2]

theorem emitRun_stn (r : List Char) (hne : r ≠ [])
    (h : ∀ c ∈ r, isStn c = true) : emitRun r = [' '] := by
  match r with
  | [] => exact absurd rfl hne
  | [c] =>
    have hc := h c (List.mem_singleton_self c)
    rcases Bool.or_eq_true_iff.mp hc with h2 | h2
    · rcases Bool.or_eq_true_iff.mp h2 with h3 | h3
      · rw [decide_eq_true_eq.mp h3]; rfl
      · rw [decide_eq_true_eq.mp h3]; rfl
    · rw [decide_eq_true_eq.mp h2]; rfl
  | c1 :: c2 :: rest => rfl

theorem normWsAux_append_ws (r : List Char) (hw : ∀ c ∈ r, isWs c = true) :
    ∀ (run s : List Char), normWsAux run (r ++ s) = normWsAux (run ++ r) s := by
  induction r with
  | nil => intro run s; simp
  | cons c r2 ih =>
    intro run s
    have hc := hw c (List.mem_cons_self _ _)
    simp only [List.cons_append, normWsAux, hc, if_true, List.append_eq]
    rw [ih (fun d hd => hw d (List.mem_cons_of_mem _ hd)) (run ++ [c]) s]
    congr 1
    simp

theorem wsEquiv_norm_eq (s t : List Char) (h : WsRunEquivP isStn s t) :
    normWsAux [] s = normWsAux [] t := by
  induction h with
  | nil => rfl
  | word c s0 t0 hc _ ih =>
    simp only [normWsAux, hc, Bool.false_eq_true, if_false]
    simp [ih]
  | run r1 r2 s0 t0 h1 h2 hp1 hp2 hh1 hh2 _ ih =>
    have hw1 : ∀ c ∈ r1, isWs c = true := fun c hc => isWs_of_isStn c (hp1 c hc)
    have hw2 : ∀ c ∈ r2, isWs c = true := fun c hc => isWs_of_isStn c (hp2 c hc)
    rw [normWsAux_append_ws r1 hw1 [] s0, normWsAux_append_ws r2 hw2 [] t0]
    simp only [List.nil_append]
    have he1 : emitRun r1 = [' '] := emitRun_stn r1 h1 hp1
    have he2 : emitRun r2 = [' '] := emitRun_stn r2 h2 hp2
    cases s0 with
    | nil =>
      cases t0 with
      | nil =>
        show emitRun r1 = emitRun r2
        rw [he1, he2]
      | cons d t0' =>
        exfalso
        have hd : isWs d = false := hh2
        have h3 : normWsAux [] (d :: t0') = d :: normWsAux [] t0' := by
          simp [normWsAux, emitRun, hd]
        rw [h3, show normWsAux ([] : List Char) [] = [] from rfl] at ih
        exact List.noConfusion ih
    | cons d s0' =>
      cases t0 with
      | nil =>
        exfalso
        have hd : isWs d = false := hh1
        have h3 : normWsAux [] (d :: s0') = d :: normWsAux [] s0' := by
          simp [normWsAux, emitRun, hd]
        rw [h3, show normWsAux ([] : List Char) [] = [] from rfl] at ih
        exact List.noConfusion ih
      | cons d2 t0' =>
        have hd : isWs d = false := hh1
        have hd2 : isWs d2 = false := hh2
        have h3 : normWsAux [] (d :: s0') = d :: normWsAux [] s0' := by
          simp [normWsAux, emitRun, hd]
        have h4 : normWsAux [] (d2 :: t0') = d2 :: normWsAux [] t0' := by
          simp [normWsAux, emitRun, hd2]
        rw [h3, h4] at ih
        have h5 : normWsAux r1 (d :: s0')
            = emitRun r1 ++ d :: normWsAux [] s0' := by
          simp [normWsAux, hd]
        have h6 : normWsAux r2 (d2 :: t0')
            = emitRun r2 ++ d2 :: normWsAux [] t0' := by
          simp [normWsAux, hd2]
        rw [h5, h6, he1, he2, ih]

/-- Two routine entries agree except that their definition strings may
differ by whitespace runs drawn from `P`. -/
def routineEntryRel (P : Char → Bool) (r1 r2 : RoutineSchema) : Prop :=
  WsRunEquivP P r1.definition.data r2.definition.data ∧
    r1.parameters = r2.parameters

/-- Two routine mappings are identical except for whitespace runs (from `P`)
inside corresponding definition strings. -/
def routinesRel (P : Char → Bool) :
    List (String × RoutineSchema) → List (String × RoutineSchema) → Prop :=
  List.Forall₂ (fun a b => a.1 = b.1 ∧ routineEntryRel P a.2 b.2)

theorem routinesRel_keys (P : Char → Bool)
    (l1 l2 : List (String × RoutineSchema)) (h : routinesRel P l1 l2) :
    keysOf l1 = keysOf l2 := by
  induction h with
  | nil => rfl
  | cons hab htl ih =>
    simp only [keysOf, List.map_cons]
    rw [hab.1]
    exact congrArg _ ih

theorem routinesRel_lookup (P : Char → Bool)
    (l1 l2 : List (String × RoutineSchema)) (h : routinesRel P l1 l2)
    (p : String) :
    (lookupJR l1 p = none ∧ lookupJR l2 p = none) ∨
    ∃ r1 r2, lookupJR l1 p = some r1 ∧ lookupJR l2 p = some r2 ∧
      routineEntryRel P r1 r2 := by
  induction h with
  | nil => exact Or.inl ⟨rfl, rfl⟩
  | @cons a b l1t l2t hab htl ih =>
    obtain ⟨ka, ra⟩ := a
    obtain ⟨kb, rb⟩ := b
    obtain ⟨hk, hrel⟩ := hab
    simp only at hk
    by_cases hka : ka = p
    · right
      refine ⟨ra, rb, ?_, ?_, hrel⟩
      · simp [lookupJR, hka]
      · simp [lookupJR, hk ▸ hka]
    · have hkb : ¬(kb = p) := fun hh => hka (hk ▸ hh)
      simp only [lookupJR, if_neg hka, if_neg hkb]
      exact ih

theorem normStr_eq_of_rel (d1 d2 : String)
    (h : WsRunEquivP isStn d1.data d2.data) : normStr d1 = normStr d2 :=
  congrArg String.mk (wsEquiv_norm_eq _ _ h)

theorem routine_body_cso_nil (otBody : ObjectType) (p : String)
    (r1 r2 : RoutineSchema) (hrel : routineEntryRel isStn r1 r2) :
    (compareSchemaObjects otBody (some (routineToJR r1))
      (some (routineToJR r2))
      ⟨some "definition", some p, none, some false⟩).1 = [] := by
  obtain ⟨hws, hpar⟩ := hrel
  have hnorm := normStr_eq_of_rel _ _ hws
  have he1 : csoEntry otBody (routineToJR r1) (routineToJR r2)
      ⟨some "definition", some p, none, some false⟩ "definition" = none := by
    have hlA : lookupJR (routineToJR r1) "definition"
        = some (JSVal.str r1.definition) := rfl
    have hlB : lookupJR (routineToJR r2) "definition"
        = some (JSVal.str r2.definition) := rfl
    have haA : csoAdjust ⟨some "definition", some p, none, some false⟩
        (some (JSVal.str r1.definition))
        = some (JSVal.str (normStr r1.definition)) := rfl
    have haB : csoAdjust ⟨some "definition", some p, none, some false⟩
        (some (JSVal.str r2.definition))
        = some (JSVal.str (normStr r2.definition)) := rfl
    simp only [csoEntry, hlA, hlB, haA, haB, hnorm]
    simp [csoMismatchCond_self]
  have he2 : csoEntry otBody (routineToJR r1) (routineToJR r2)
      ⟨some "definition", some p, none, some false⟩ "parameters" = none := by
    have hlA : lookupJR (routineToJR r1) "parameters"
        = some (JSVal.obj (recordToJ r1.parameters)) := rfl
    have hlB : lookupJR (routineToJR r2) "parameters"
        = some (JSVal.obj (recordToJ r2.parameters)) := rfl
    simp only [csoEntry, hlA, hlB, hpar]
    rfl
  have hu : unionKeys (routineToJR r1) (routineToJR r2)
      = ["definition", "parameters"] := rfl
  show (csoLoop otBody _ _ _ _).1 = []
  simp only [Option.getD_some, hu]
  have := csoLoop_all_none otBody (routineToJR r1) (routineToJR r2)
    ⟨some "definition", some p, none, some false⟩ ["definition", "parameters"]
    (by
      intro q hq
      rcases List.mem_cons.mp hq with rfl | hq2
      · exact he1
      · rcases List.mem_cons.mp hq2 with rfl | hq3
        · exact he2
        · cases hq3)
  rw [this]

theorem paramLookup_eq_of_rel (P : Char → Bool)
    (rsA rsB : List (String × RoutineSchema)) (hrel : routinesRel P rsA rsB)
    (p q : String) : paramLookup rsA p q = paramLookup rsB p q := by
  unfold paramLookup
  rcases routinesRel_lookup P rsA rsB hrel p with ⟨h1, h2⟩ | ⟨r1, r2, h1, h2, hr⟩
  · rw [h1, h2]
  · rw [h1, h2]
    simp [hr.2]

theorem paramsJOf_eq_of_rel (P : Char → Bool)
    (rsA rsB : List (String × RoutineSchema)) (hrel : routinesRel P rsA rsB)
    (p : String) : paramsJOf rsA p = paramsJOf rsB p := by
  unfold paramsJOf
  rcases routinesRel_lookup P rsA rsB hrel p with ⟨h1, h2⟩ | ⟨r1, r2, h1, h2, hr⟩
  · rw [h1, h2]
  · rw [h1, h2]
    simp [hr.2]

theorem paramsLoop_nil_of_eq (opts : ComparisonOptions) (ot : ObjectType)
    (rsA rsB : List (String × RoutineSchema)) (p : String)
    (h : ∀ q, paramLookup rsA p q = paramLookup rsB p q) :
    ∀ (l : List String), paramsLoop opts ot rsA rsB p l = [] := by
  intro l
  induction l with
  | nil => rfl
  | cons q rest ih =>
    simp only [paramsLoop]
    rw [h q]
    simp [compareSchemaObjects_self, ih]

theorem routinesLoop_nil_of_rel (opts : ComparisonOptions)
    (hwf : opts.whitespaces = false) (otB otP : ObjectType)
    (rsA rsB : List (String × RoutineSchema))
    (hrel : routinesRel isStn rsA rsB) :
    ∀ (l : List String), routinesLoop opts otB otP rsA rsB l = [] := by
  intro l
  induction l with
  | nil => rfl
  | cons p rest ih =>
    have hbody : (compareSchemaObjects otB (routineJROf rsA p)
        (routineJROf rsB p)
        { name := some p, inOwner := some "definition",
          whitespaces := some opts.whitespaces }).1 = [] := by
      unfold routineJROf
      rcases routinesRel_lookup isStn rsA rsB hrel p
        with ⟨h1, h2⟩ | ⟨r1, r2, h1, h2, hr⟩
      · rw [h1, h2]
        exact compareSchemaObjects_self otB none _
      · rw [h1, h2, hwf]
        exact routine_body_cso_nil otB p r1 r2 hr
    have hpp : (compareSchemaObjects otP (paramsJOf rsA p) (paramsJOf rsB p)
        { inOwner := some p }).1 = [] := by
      rw [paramsJOf_eq_of_rel isStn rsA rsB hrel p]
      exact compareSchemaObjects_self otP _ _
    simp only [routinesLoop, hbody, hpp]
    rw [if_neg (by simp)]
    rw [paramsLoop_nil_of_eq opts otP rsA rsB p
      (paramLookup_eq_of_rel isStn rsA rsB hrel p) _, ih]
    rfl

theorem compareProcedures_nil_of_rel (opts : ComparisonOptions)
    (hwf : opts.whitespaces = false) (A B : InformationSchema)
    (hrel : routinesRel isStn A.procedures B.procedures) :
    compareProcedures opts A B = [] := by
  simp only [compareProcedures]
  have hpres := cso_objmap_full routineToJR routineToJR A.procedures
    B.procedures (fun x => by rw [routinesRel_keys isStn _ _ hrel]) .procedure
    ({} : CsoOptions)
  show ((compareSchemaObjects .procedure (some (routinesToJ A.procedures))
      (some (routinesToJ B.procedures)) {}).1 ++ _) = []
  rw [show routinesToJ A.procedures
      = A.procedures.map (fun q => (q.1, JSVal.obj (routineToJR q.2)))
      from rfl,
    show routinesToJ B.procedures
      = B.procedures.map (fun q => (q.1, JSVal.obj (routineToJR q.2)))
      from rfl, hpres]
  rw [routinesLoop_nil_of_rel opts hwf .procedure .procedureParameter
    A.procedures B.procedures hrel]
  rfl

theorem compareFunctions_nil_of_rel (opts : ComparisonOptions)
    (hwf : opts.whitespaces = false) (A B : InformationSchema)
    (hrel : routinesRel isStn A.functions B.functions) :
    compareFunctions opts A B = [] := by
  simp only [compareFunctions]
  have hpres := cso_objmap_full routineToJR routineToJR A.functions
    B.functions (fun x => by rw [routinesRel_keys isStn _ _ hrel]) .function
    ({} : CsoOptions)
  show ((compareSchemaObjects .function (some (routinesToJ A.functions))
      (some (routinesToJ B.functions)) {}).1 ++ _) = []
  rw [show routinesToJ A.functions
      = A.functions.map (fun q => (q.1, JSVal.obj (routineToJR q.2)))
      from rfl,
    show routinesToJ B.functions
      = B.functions.map (fun q => (q.1, JSVal.obj (routineToJR q.2)))
      from rfl, hpres]
  rw [routinesLoop_nil_of_rel opts hwf .function .functionParameter
    A.functions B.functions hrel]
  rfl

theorem columnsLoop_nil_of_eq_tables (opts : ComparisonOptions)
    (A B : InformationSchema) (htab : B.tables = A.tables) (t : String) :
    ∀ (l : List String), columnsLoop opts A B t l = [] := by
  intro l
  induction l with
  | nil => rfl
  | cons c rest ih =>
    have hcl : columnLookup B t c = columnLookup A t c := by
      unfold columnLookup
      rw [htab]
    simp only [columnsLoop, hcl]
    simp [compareSchemaObjects_self, ih]

theorem tablesLoop_nil_of_eq_tables (opts : ComparisonOptions)
    (A B : InformationSchema) (htab : B.tables = A.tables) :
    ∀ (l : List String), tablesLoop opts A B l = [] := by
  intro l
  induction l with
  | nil => rfl
  | cons t rest ih =>
    simp [tablesLoop, compareSchemaObjects_self,
      columnsLoop_nil_of_eq_tables opts A B htab t, ih]

theorem compareTables_nil_of_eq_tables (opts : ComparisonOptions)
    (A B : InformationSchema) (htab : B.tables = A.tables) :
    compareTables opts A B = [] := by
  simp only [compareTables]
  rw [show tablesToJ B.tables = tablesToJ A.tables from by rw [htab]]
  simp [compareSchemaObjects_self, tablesLoop_nil_of_eq_tables opts A B htab]

theorem compareIndex_nil_of_eq (A B : InformationSchema)
    (hidx : B.indexes = A.indexes) : compareIndex A B = [] := by
  unfold compareIndex
  generalize unionKeys A.tables B.tables = l
  induction l with
  | nil => rfl
  | cons t rest ih =>
    have hj : idxJOf B t = idxJOf A t := by
      unfold idxJOf
      rw [hidx]
    have hkeysnil : indexKeysLoop A B t (compareSchemaObjects .index
        (idxJOf A t) (idxJOf A t) { inOwner := some t }).2 = [] := by
      apply indexKeysLoop_nil_of_eq
      intro j _
      rw [hidx]
    simp only [indexTablesLoop, hj]
    split
    · exact ih
    · simp [compareSchemaObjects_self, hkeysnil, ih]

theorem csoLoop_head_mem (ot : ObjectType) (A B : JRecord)
    (options : CsoOptions) (h : String) (rest : List String) (c : Comparison)
    (he : csoEntry ot A B options h = some c) :
    c ∈ (csoLoop ot A B options (h :: rest)).1 := by
  simp only [csoLoop, he]
  rcases csoNameTruthy options with _ | _ <;> simp

theorem body_mismatch_mem (otB : ObjectType) (p : String)
    (r1 r2 : RoutineSchema) (hne : r1.definition ≠ r2.definition) :
    ∃ c ∈ (compareSchemaObjects otB (some (routineToJR r1))
        (some (routineToJR r2))
        ⟨some "definition", some p, none, some true⟩).1,
      c.objectType = otB ∧ c.inOwner = some "definition" ∧
      c.A = some .mismatch ∧ c.B = some .mismatch := by
  have hlA : lookupJR (routineToJR r1) "definition"
      = some (JSVal.str r1.definition) := rfl
  have hlB : lookupJR (routineToJR r2) "definition"
      = some (JSVal.str r2.definition) := rfl
  have haA : csoAdjust ⟨some "definition", some p, none, some true⟩
      (some (JSVal.str r1.definition))
      = some (JSVal.str r1.definition) := rfl
  have haB : csoAdjust ⟨some "definition", some p, none, some true⟩
      (some (JSVal.str r2.definition))
      = some (JSVal.str r2.definition) := rfl
  have hcond : csoMismatchCond (JSVal.str r1.definition)
      (JSVal.str r2.definition) = true := by
    simp [csoMismatchCond, bne_iff_ne, hne]
  have he : csoEntry otB (routineToJR r1) (routineToJR r2)
      ⟨some "definition", some p, none, some true⟩ "definition"
      = some ⟨otB, csoNameOrProp ⟨some "definition", some p, none, some true⟩
          "definition", some "definition", some .mismatch, some .mismatch⟩ := by
    simp only [csoEntry, hlA, hlB, haA, haB, hcond]
    rfl
  refine ⟨⟨otB, csoNameOrProp ⟨some "definition", some p, none, some true⟩
    "definition", some "definition", some .mismatch, some .mismatch⟩,
    ?_, rfl, rfl, rfl, rfl⟩
  show _ ∈ (csoLoop otB _ _ _ _).1
  simp only [Option.getD_some,
    show unionKeys (routineToJR r1) (routineToJR r2)
      = ["definition", "parameters"] from rfl]
  exact csoLoop_head_mem otB _ _ _ "definition" ["parameters"] _ he

theorem routinesLoop_body_mem (opts : ComparisonOptions)
    (otB otP : ObjectType) (rsA rsB : List (String × RoutineSchema))
    (p : String) (c : Comparison)
    (hc : c ∈ (compareSchemaObjects otB (routineJROf rsA p)
      (routineJROf rsB p)
      { name := some p, inOwner := some "definition",
        whitespaces := some opts.whitespaces }).1) :
    ∀ (l : List String), p ∈ l → c ∈ routinesLoop opts otB otP rsA rsB l := by
  intro l
  induction l with
  | nil => intro h; cases h
  | cons q rest ih =>
    intro hp
    simp only [routinesLoop]
    rcases List.mem_cons.mp hp with rfl | hp2
    · exact List.mem_append.mpr (Or.inl hc)
    · apply List.mem_append.mpr
      apply Or.inr
      split
      · apply List.mem_append.mpr
        apply Or.inr
        split
        · exact ih hp2
        · exact List.mem_append.mpr (Or.inr (ih hp2))
      · exact List.mem_append.mpr (Or.inr (ih hp2))

theorem routines_mismatch_in_loop (e v : Bool) (otB otP : ObjectType)
    (rsA rsB : List (String × RoutineSchema))
    (hkeys : keysOf rsA = keysOf rsB)
    (p : String) (r1 r2 : RoutineSchema)
    (hp1 : lookupJR rsA p = some r1) (hp2 : lookupJR rsB p = some r2)
    (hne : r1.definition ≠ r2.definition) :
    ∃ c, c ∈ routinesLoop ⟨e, v, true⟩ otB otP rsA rsB
        (compareSchemaObjects otB (some (routinesToJ rsA))
          (some (routinesToJ rsB)) {}).2 ∧
      c.objectType = otB ∧ c.inOwner = some "definition" ∧
      c.A = some .mismatch ∧ c.B = some .mismatch := by
  have hjr1 : routineJROf rsA p = some (routineToJR r1) := by
    unfold routineJROf
    rw [hp1]
    rfl
  have hjr2 : routineJROf rsB p = some (routineToJR r2) := by
    unfold routineJROf
    rw [hp2]
    rfl
  rcases body_mismatch_mem otB p r1 r2 hne with ⟨c, hcm, q1, q2, q3, q4⟩
  rw [← hjr1, ← hjr2] at hcm
  have hpmem : p ∈ unionKeys
      (rsA.map (fun q => (q.1, JSVal.obj (routineToJR q.2))))
      (rsB.map (fun q => (q.1, JSVal.obj (routineToJR q.2)))) := by
    apply (mem_unionKeys _ _ p).mpr
    apply Or.inl
    rw [keysOf_mapVal (fun z => JSVal.obj (routineToJR z)) rsA]
    exact (lookupJR_isSome_iff _ p).mp (by simp [hp1])
  refine ⟨c, ?_, q1, q2, q3, q4⟩
  apply routinesLoop_body_mem ⟨e, v, true⟩ otB otP rsA rsB p c hcm
  rw [show routinesToJ rsA
      = rsA.map (fun q => (q.1, JSVal.obj (routineToJR q.2))) from rfl,
    show routinesToJ rsB
      = rsB.map (fun q => (q.1, JSVal.obj (routineToJR q.2))) from rfl,
    cso_objmap_full routineToJR routineToJR rsA rsB
      (fun x => by rw [hkeys]) otB {}]
  exact hpmem

/-- C5 (amended): for every pair of documents whose procedures and functions
are identical except that corresponding definition strings differ only by
runs of space, tab and newline characters, `compare` emits no procedure or
function definition mismatch when `checkWhitespace` is false (whatever the
tables and indexes of the two documents), and when additionally some
corresponding procedure or function definition pair differs as strings,
`compare` with `checkWhitespace` true emits a procedure or function
definition mismatch.  The restriction of the whitespace alphabet to
space/tab/newline is forced: the normalization regex `([\s]{2,}|\t|\n)`
leaves a lone carriage return or vertical tab in place, so runs of other
whitespace characters can still produce a mismatch when `checkWhitespace`
is false. -/
theorem C5_whitespace_insensitivity (e v : Bool) (A B : InformationSchema)
    (hproc : routinesRel isStn A.procedures B.procedures)
    (hfun : routinesRel isStn A.functions B.functions)
    (hne : (∃ p r1 r2, lookupJR A.procedures p = some r1 ∧
        lookupJR B.procedures p = some r2 ∧ r1.definition ≠ r2.definition) ∨
      (∃ p r1 r2, lookupJR A.functions p = some r1 ∧
        lookupJR B.functions p = some r2 ∧ r1.definition ≠ r2.definition)) :
    (∀ c ∈ compare ⟨e, v, false⟩ A B,
      ¬((c.objectType = .procedure ∨ c.objectType = .function) ∧
        c.inOwner = some "definition" ∧ c.A = some .mismatch)) ∧
    (∃ c ∈ compare ⟨e, v, true⟩ A B,
      (c.objectType = .procedure ∨ c.objectType = .function) ∧
      c.inOwner = some "definition" ∧
      c.A = some .mismatch ∧ c.B = some .mismatch) := by
  constructor
  · intro c hc
    rintro ⟨hty, hio, hA⟩
    unfold compare at hc
    rw [compareProcedures_nil_of_rel _ rfl A B hproc,
      compareFunctions_nil_of_rel _ rfl A B hfun] at hc
    simp only [List.append_nil] at hc
    rcases List.mem_append.mp hc with h | h
    · rcases compareTables_objectType _ A B c h with ht | ht <;>
        rcases hty with hty | hty <;> rw [ht] at hty <;> cases hty
    · have ht := compareIndex_objectType A B c h
      rcases hty with hty | hty <;> rw [ht] at hty <;> cases hty
  · rcases hne with ⟨p, r1, r2, hp1, hp2, hnd⟩ | ⟨p, r1, r2, hp1, hp2, hnd⟩
    · rcases routines_mismatch_in_loop e v .procedure .procedureParameter
          A.procedures B.procedures (routinesRel_keys isStn _ _ hproc)
          p r1 r2 hp1 hp2 hnd with ⟨c, hloop, q1, q2, q3, q4⟩
      refine ⟨c, ?_, Or.inl q1, q2, q3, q4⟩
      unfold compare
      apply List.mem_append.mpr
      apply Or.inl
      apply List.mem_append.mpr
      apply Or.inr
      simp only [compareProcedures]
      exact List.mem_append.mpr (Or.inr hloop)
    · rcases routines_mismatch_in_loop e v .function .functionParameter
          A.functions B.functions (routinesRel_keys isStn _ _ hfun)
          p r1 r2 hp1 hp2 hnd with ⟨c, hloop, q1, q2, q3, q4⟩
      refine ⟨c, ?_, Or.inr q1, q2, q3, q4⟩
      unfold compare
      apply List.mem_append.mpr
      apply Or.inr
      simp only [compareFunctions]
      exact List.mem_append.mpr (Or.inr hloop)

/-- C5 counterexample: the definitions `"a\rb"` and `"a b"` differ only by a
run of whitespace (a lone carriage return versus a space, both matched by
the regex class `\s`), yet with `checkWhitespace = false` the engine still
emits a procedure definition mismatch: the replacement regex
`([\s]{2,}|\t|\n)` does not normalize a lone `\r`. -/
theorem C5_counterexample :
    WsRunEquivP isWs ("a\rb").data ("a b").data ∧
    ("a\rb" : String) ≠ "a b" ∧
    (∃ c ∈ compare ⟨false, false, false⟩
        ⟨[], [], [("p", ⟨"a\rb", []⟩)], []⟩
        ⟨[], [], [("p", ⟨"a b", []⟩)], []⟩,
      c.objectType = .procedure ∧ c.inOwner = some "definition" ∧
      c.A = some .mismatch) :=
  ⟨WsRunEquivP.word 'a' ['\r', 'b'] [' ', 'b'] (by decide)
    (WsRunEquivP.run ['\r'] [' '] ['b'] ['b'] (by decide) (by decide)
      (by decide) (by decide) (by decide) (by decide)
      (WsRunEquivP.word 'b' [] [] (by decide) WsRunEquivP.nil)),
    by decide, by decide⟩

/-- C5 witness: the amended theorem applied to documents whose only
difference is a double space versus a single space inside the body of
procedure `p`. -/
theorem C5_whitespace_insensitivity_witness :
    ("a  b" : String) ≠ "a b" ∧
    ((∀ c ∈ compare ⟨false, false, false⟩
        ⟨[], [], [("p", ⟨"a  b", []⟩)], []⟩
        ⟨[], [], [("p", ⟨"a b", []⟩)], []⟩,
      ¬((c.objectType = .procedure ∨ c.objectType = .function) ∧
        c.inOwner = some "definition" ∧ c.A = some .mismatch)) ∧
    (∃ c ∈ compare ⟨false, false, true⟩
        ⟨[], [], [("p", ⟨"a  b", []⟩)], []⟩
        ⟨[], [], [("p", ⟨"a b", []⟩)], []⟩,
      (c.objectType = .procedure ∨ c.objectType = .function) ∧
      c.inOwner = some "definition" ∧
      c.A = some .mismatch ∧ c.B = some .mismatch)) :=
  ⟨by decide,
    C5_whitespace_insensitivity false false
      ⟨[], [], [("p", ⟨"a  b", []⟩)], []⟩
      ⟨[], [], [("p", ⟨"a b", []⟩)], []⟩
      (List.Forall₂.cons
        ⟨rfl, WsRunEquivP.word 'a' [' ', ' ', 'b'] [' ', 'b'] (by decide)
          (WsRunEquivP.run [' ', ' '] [' '] ['b'] ['b'] (by decide) (by decide)
            (by decide) (by decide) (by decide) (by decide)
            (WsRunEquivP.word 'b' [] [] (by decide) WsRunEquivP.nil)), rfl⟩
        List.Forall₂.nil)
      List.Forall₂.nil
      (Or.inl ⟨"p", ⟨"a  b", []⟩, ⟨"a b", []⟩, rfl, rfl, by decide⟩)⟩

end Rdbdiff
